import Mathlib

/-!
Verification of the batched minipool state-aggregation engine
(package state, file with GetAllNativeMinipoolDetails and friends).

The Go source is shallowly embedded: machine integers and big.Int values
become Nat and Int, nil-able big.Int pointers become Option Int, the
multicall facility becomes lists of call descriptors executed against an
oracle environment, and the errgroup-scheduled chunk loops become folds
over the deterministic list of chunk start offsets.  Every function below
mirrors one Go function of the source and keeps its name.
-/

namespace RocketPoolState

/-- 20-byte account address (common.Address), modeled as a natural number. -/
abbrev Address := Nat

/-- types.MinipoolStatus wraps a uint8 status code. -/
abbrev MinipoolStatus := Nat

/-- types.MinipoolDeposit wraps a uint8 deposit-type code. -/
abbrev MinipoolDeposit := Nat

/-- The batch-size constants of the source file. -/
def minipoolBatchSize : Nat := 100

def minipoolCompleteShareBatchSize : Nat := 500

def minipoolAddressBatchSize : Nat := 1000

def minipoolVersionBatchSize : Nat := 500

/-- The package-level big.NewInt(0) the source compares against. -/
def zero : Int := 0

/-- Identity of a contract a call is addressed to. -/
inductive ContractId where
  | rocketMinipoolManager
  | rocketStorage
  | rocketMinipoolBondReducer
  | balanceBatcher
  | minipoolContract (addr : Address) (version : Nat)
  | versionContract (addr : Address)
deriving DecidableEq, Repr

/-- One encoded call argument.  Storage keys derived by Keccak hashing a
label together with an address are kept symbolic. -/
inductive Arg where
  | addr (a : Address)
  | int (i : Int)
  | key (label : String) (a : Address)
deriving DecidableEq, Repr

/-- A call descriptor: target contract, method name, encoded arguments. -/
structure CallDesc where
  target : ContractId
  method : String
  args : List Arg
deriving DecidableEq, Repr

/-- A decoded call result. -/
inductive Value where
  | vBool (b : Bool)
  | vInt (i : Int)
  | vAddr (a : Address)
deriving DecidableEq, Repr

def Value.toInt : Value → Int
  | .vInt i => i
  | .vBool b => if b then 1 else 0
  | .vAddr a => a

def Value.toNat : Value → Nat
  | .vInt i => i.toNat
  | .vBool b => if b then 1 else 0
  | .vAddr a => a

def Value.toBool : Value → Bool
  | .vBool b => b
  | _ => false

def Value.toAddr : Value → Address
  | .vAddr a => a
  | _ => 0

/-- The output slot (a field of NativeMinipoolDetails) a call result is
decoded into.  Only the fields bound through multicall.AddCall appear. -/
inductive FieldId where
  | fExists | fPubkey | fWithdrawalCredentials | fSlashed
  | fStatusRaw | fStatusBlock | fStatusTime | fFinalised
  | fNodeFee | fNodeDepositBalance | fNodeDepositAssigned
  | fUserDepositBalance | fUserDepositAssigned | fUserDepositAssignedTime
  | fUseLatestDelegate | fDelegate | fPreviousDelegate | fEffectiveDelegate
  | fNodeAddress | fNodeRefundBalance
  | fUserDistributed | fIsVacant | fPreMigrationBalance
  | fReduceBondTime | fReduceBondCancelled
  | fLastBondReductionTime | fLastBondReductionPrevValue
  | fLastBondReductionPrevNodeFee | fReduceBondValue
  | fPenaltyCount | fPenaltyRate | fDepositTypeRaw
  | fNodeShareOfBalance | fUserShareOfBalance
deriving DecidableEq, Repr

/-- A call descriptor together with its output binding (the pointer
argument of multicall.AddCall). -/
structure BoundCall where
  desc : CallDesc
  field : FieldId
deriving DecidableEq, Repr

/-- One executed multicall round trip: the block height it was pinned to,
its mode (strict or lenient) and the descriptors it carried. -/
structure ExecutedBatch where
  block : Nat
  strict : Bool
  calls : List CallDesc
deriving DecidableEq, Repr

/-- Complete details for a minipool (struct NativeMinipoolDetails).
Go zero values are the field defaults; nil big.Int pointers are none. -/
structure NativeMinipoolDetails where
  Exists : Bool := false
  MinipoolAddress : Address := 0
  Pubkey : Int := 0
  StatusRaw : Nat := 0
  StatusBlock : Option Int := none
  StatusTime : Option Int := none
  Finalised : Bool := false
  DepositTypeRaw : Nat := 0
  NodeFee : Option Int := none
  NodeDepositBalance : Option Int := none
  NodeDepositAssigned : Bool := false
  UserDepositBalance : Option Int := none
  UserDepositAssigned : Bool := false
  UserDepositAssignedTime : Option Int := none
  UseLatestDelegate : Bool := false
  Delegate : Address := 0
  PreviousDelegate : Address := 0
  EffectiveDelegate : Address := 0
  PenaltyCount : Option Int := none
  PenaltyRate : Option Int := none
  NodeAddress : Address := 0
  Version : Nat := 0
  Balance : Option Int := none
  DistributableBalance : Option Int := none
  NodeShareOfBalance : Option Int := none
  UserShareOfBalance : Option Int := none
  NodeRefundBalance : Option Int := none
  WithdrawalCredentials : Int := 0
  Status : MinipoolStatus := 0
  DepositType : MinipoolDeposit := 0
  NodeShareOfBalanceIncludingBeacon : Option Int := none
  UserShareOfBalanceIncludingBeacon : Option Int := none
  NodeShareOfBeaconBalance : Option Int := none
  UserShareOfBeaconBalance : Option Int := none
  UserDistributed : Bool := false
  Slashed : Bool := false
  IsVacant : Bool := false
  LastBondReductionTime : Option Int := none
  LastBondReductionPrevValue : Option Int := none
  LastBondReductionPrevNodeFee : Option Int := none
  ReduceBondTime : Option Int := none
  ReduceBondCancelled : Bool := false
  ReduceBondValue : Option Int := none
  PreMigrationBalance : Option Int := none
deriving DecidableEq, Repr

instance : Inhabited NativeMinipoolDetails := ⟨{}⟩

/-- The remote chain together with the client-side bindings the engine
talks to.  callResult returning none models a per-call failure;
transportOk false models a transport-level failure of the whole round
trip; the two Ok predicates model the fallible client-side constructors
GetRocketVersionContractForAddress and NewMinipoolFromVersion. -/
structure ChainEnv where
  elBlockNumber : Nat
  callResult : Nat → CallDesc → Option Value
  ethBalance : Nat → Address → Int
  balanceBatcherOk : Bool
  transportOk : Nat → List CallDesc → Bool
  versionContractOk : Address → Bool
  minipoolFromVersionOk : Address → Nat → Bool

/-- FlexibleCall in strict mode: a transport failure or any single call
failure fails the whole batch (returns none); otherwise all decoded
values are returned in order. -/
def execStrict (env : ChainEnv) (blk : Nat) (calls : List CallDesc) :
    Option (List Value) :=
  if env.transportOk blk calls then calls.mapM (env.callResult blk) else none

/-- FlexibleCall in lenient mode: a transport failure fails the batch;
otherwise each call reports its own success (some value) or failure
(none) without failing the batch. -/
def execLenient (env : ChainEnv) (blk : Nat) (calls : List CallDesc) :
    Option (List (Option Value)) :=
  if env.transportOk blk calls then some (calls.map (env.callResult blk)) else none

/-- Number of chunks the loop head
for i := 0; i < count; i += size iterates. -/
def numChunks (count size : Nat) : Nat := (count + size - 1) / size

/-- The successive values of i in that loop: 0, size, 2*size, ... -/
def chunkStarts (count size : Nat) : List Nat :=
  (List.range (numChunks count size)).map (fun k => k * size)

/-- The indices j processed by the chunk starting at i:
for j := i; j < min (i+size) count; j++. -/
def chunkIdxs (i count size : Nat) : List Nat :=
  List.range' i (min (i + size) count - i)

/-- Keep the first error reported (errgroup.Wait surfaces one error). -/
def firstErr : Option String → String → Option String
  | some e, _ => some e
  | none, e => some e

/-- Package a possibly recorded error into the Go (value, error) pair,
modeled as Except. -/
def mkExcept : Option String → α → Except String α
  | some e, _ => .error e
  | none, a => .ok a

def isOkE : Except String α → Bool
  | .ok _ => true
  | .error _ => false

def isErrE : Except String α → Bool
  | .ok _ => false
  | .error _ => true

def getOkE : Except String α → Option α
  | .ok a => some a
  | .error _ => none

/-- Write each (index, value) update into a pre-allocated list, in order. -/
def setAll (l : List α) (ups : List (Nat × α)) : List α :=
  ups.foldl (fun acc p => acc.set p.1 p.2) l

/-- Decode one multicall output into its bound field of the record. -/
def writeField (f : FieldId) (v : Value) (d : NativeMinipoolDetails) :
    NativeMinipoolDetails :=
  match f with
  | .fExists => {d with Exists := v.toBool}
  | .fPubkey => {d with Pubkey := v.toInt}
  | .fWithdrawalCredentials => {d with WithdrawalCredentials := v.toInt}
  | .fSlashed => {d with Slashed := v.toBool}
  | .fStatusRaw => {d with StatusRaw := v.toNat}
  | .fStatusBlock => {d with StatusBlock := some v.toInt}
  | .fStatusTime => {d with StatusTime := some v.toInt}
  | .fFinalised => {d with Finalised := v.toBool}
  | .fNodeFee => {d with NodeFee := some v.toInt}
  | .fNodeDepositBalance => {d with NodeDepositBalance := some v.toInt}
  | .fNodeDepositAssigned => {d with NodeDepositAssigned := v.toBool}
  | .fUserDepositBalance => {d with UserDepositBalance := some v.toInt}
  | .fUserDepositAssigned => {d with UserDepositAssigned := v.toBool}
  | .fUserDepositAssignedTime => {d with UserDepositAssignedTime := some v.toInt}
  | .fUseLatestDelegate => {d with UseLatestDelegate := v.toBool}
  | .fDelegate => {d with Delegate := v.toAddr}
  | .fPreviousDelegate => {d with PreviousDelegate := v.toAddr}
  | .fEffectiveDelegate => {d with EffectiveDelegate := v.toAddr}
  | .fNodeAddress => {d with NodeAddress := v.toAddr}
  | .fNodeRefundBalance => {d with NodeRefundBalance := some v.toInt}
  | .fUserDistributed => {d with UserDistributed := v.toBool}
  | .fIsVacant => {d with IsVacant := v.toBool}
  | .fPreMigrationBalance => {d with PreMigrationBalance := some v.toInt}
  | .fReduceBondTime => {d with ReduceBondTime := some v.toInt}
  | .fReduceBondCancelled => {d with ReduceBondCancelled := v.toBool}
  | .fLastBondReductionTime => {d with LastBondReductionTime := some v.toInt}
  | .fLastBondReductionPrevValue => {d with LastBondReductionPrevValue := some v.toInt}
  | .fLastBondReductionPrevNodeFee => {d with LastBondReductionPrevNodeFee := some v.toInt}
  | .fReduceBondValue => {d with ReduceBondValue := some v.toInt}
  | .fPenaltyCount => {d with PenaltyCount := some v.toInt}
  | .fPenaltyRate => {d with PenaltyRate := some v.toInt}
  | .fDepositTypeRaw => {d with DepositTypeRaw := v.toNat}
  | .fNodeShareOfBalance => {d with NodeShareOfBalance := some v.toInt}
  | .fUserShareOfBalance => {d with UserShareOfBalance := some v.toInt}

/-- Add all of the calls for the minipool details to the multicaller
(function addMinipoolDetailsCalls).  Returns the record with the fields
the Go code assigns directly (the sub-Atlas defaults) already set,
together with the list of bound calls queued on the multicaller, or the
error of the minipool-contract constructor. -/
def addMinipoolDetailsCalls (env : ChainEnv) (d : NativeMinipoolDetails) :
    Except String (NativeMinipoolDetails × List BoundCall) :=
  let address := d.MinipoolAddress
  if env.minipoolFromVersionOk address d.Version then
    let mpContract := ContractId.minipoolContract address d.Version
    let baseCalls : List BoundCall := [
      ⟨⟨.rocketMinipoolManager, "getMinipoolExists", [.addr address]⟩, .fExists⟩,
      ⟨⟨.rocketMinipoolManager, "getMinipoolPubkey", [.addr address]⟩, .fPubkey⟩,
      ⟨⟨.rocketMinipoolManager, "getMinipoolWithdrawalCredentials", [.addr address]⟩, .fWithdrawalCredentials⟩,
      ⟨⟨.rocketMinipoolManager, "getMinipoolRPLSlashed", [.addr address]⟩, .fSlashed⟩,
      ⟨⟨mpContract, "getStatus", []⟩, .fStatusRaw⟩,
      ⟨⟨mpContract, "getStatusBlock", []⟩, .fStatusBlock⟩,
      ⟨⟨mpContract, "getStatusTime", []⟩, .fStatusTime⟩,
      ⟨⟨mpContract, "getFinalised", []⟩, .fFinalised⟩,
      ⟨⟨mpContract, "getNodeFee", []⟩, .fNodeFee⟩,
      ⟨⟨mpContract, "getNodeDepositBalance", []⟩, .fNodeDepositBalance⟩,
      ⟨⟨mpContract, "getNodeDepositAssigned", []⟩, .fNodeDepositAssigned⟩,
      ⟨⟨mpContract, "getUserDepositBalance", []⟩, .fUserDepositBalance⟩,
      ⟨⟨mpContract, "getUserDepositAssigned", []⟩, .fUserDepositAssigned⟩,
      ⟨⟨mpContract, "getUserDepositAssignedTime", []⟩, .fUserDepositAssignedTime⟩,
      ⟨⟨mpContract, "getUseLatestDelegate", []⟩, .fUseLatestDelegate⟩,
      ⟨⟨mpContract, "getDelegate", []⟩, .fDelegate⟩,
      ⟨⟨mpContract, "getPreviousDelegate", []⟩, .fPreviousDelegate⟩,
      ⟨⟨mpContract, "getEffectiveDelegate", []⟩, .fEffectiveDelegate⟩,
      ⟨⟨mpContract, "getNodeAddress", []⟩, .fNodeAddress⟩,
      ⟨⟨mpContract, "getNodeRefundBalance", []⟩, .fNodeRefundBalance⟩]
    let tailCalls : List BoundCall := [
      ⟨⟨.rocketStorage, "getUint", [.key "network.penalties.penalty" address]⟩, .fPenaltyCount⟩,
      ⟨⟨.rocketStorage, "getUint", [.key "minipool.penalty.rate" address]⟩, .fPenaltyRate⟩,
      ⟨⟨.rocketMinipoolManager, "getMinipoolDepositType", [.addr address]⟩, .fDepositTypeRaw⟩]
    if d.Version < 3 then
      -- These fields are all v3+ only: filled with explicit defaults,
      -- no calls are queued for them.
      let d2 := {d with
        UserDistributed := false
        LastBondReductionTime := some 0
        LastBondReductionPrevValue := some 0
        LastBondReductionPrevNodeFee := some 0
        IsVacant := false
        ReduceBondTime := some 0
        ReduceBondCancelled := false
        ReduceBondValue := some 0
        PreMigrationBalance := some 0}
      .ok (d2, baseCalls ++ tailCalls)
    else
      let atlasCalls : List BoundCall := [
        ⟨⟨mpContract, "getUserDistributed", []⟩, .fUserDistributed⟩,
        ⟨⟨mpContract, "getVacant", []⟩, .fIsVacant⟩,
        ⟨⟨mpContract, "getPreMigrationBalance", []⟩, .fPreMigrationBalance⟩,
        ⟨⟨.rocketMinipoolBondReducer, "getReduceBondTime", [.addr address]⟩, .fReduceBondTime⟩,
        ⟨⟨.rocketMinipoolBondReducer, "getReduceBondCancelled", [.addr address]⟩, .fReduceBondCancelled⟩,
        ⟨⟨.rocketMinipoolBondReducer, "getLastBondReductionTime", [.addr address]⟩, .fLastBondReductionTime⟩,
        ⟨⟨.rocketMinipoolBondReducer, "getLastBondReductionPrevValue", [.addr address]⟩, .fLastBondReductionPrevValue⟩,
        ⟨⟨.rocketMinipoolBondReducer, "getLastBondReductionPrevNodeFee", [.addr address]⟩, .fLastBondReductionPrevNodeFee⟩,
        ⟨⟨.rocketMinipoolBondReducer, "getReduceBondValue", [.addr address]⟩, .fReduceBondValue⟩]
      .ok (d, baseCalls ++ atlasCalls ++ tailCalls)
  else .error "error creating minipool contract"

/-- Add the calls for the minipool node and user share to the multicaller
(function addMinipoolShareCalls).  DistributableBalance is assigned the
big-integer difference Balance - NodeRefundBalance; when it compares
greater or equal to zero the two share calls are queued with it as
argument, otherwise both shares are assigned zero and nothing is queued. -/
def addMinipoolShareCalls (env : ChainEnv) (d : NativeMinipoolDetails) :
    Except String (NativeMinipoolDetails × List BoundCall) :=
  let address := d.MinipoolAddress
  if env.minipoolFromVersionOk address d.Version then
    let mpContract := ContractId.minipoolContract address d.Version
    let distributable := d.Balance.getD 0 - d.NodeRefundBalance.getD 0
    let d2 := {d with DistributableBalance := some distributable}
    if zero ≤ distributable then
      .ok (d2, [
        ⟨⟨mpContract, "calculateNodeShare", [.int distributable]⟩, .fNodeShareOfBalance⟩,
        ⟨⟨mpContract, "calculateUserShare", [.int distributable]⟩, .fUserShareOfBalance⟩])
    else
      .ok ({d2 with NodeShareOfBalance := some 0, UserShareOfBalance := some 0}, [])
  else .error "error creating minipool contract"

/-- Fixes a minipool details struct with supplemental logic
(function fixupMinipoolDetails): coerce the raw status and deposit-type
codes into their enumerations.  A pure record transform. -/
def fixupMinipoolDetails (d : NativeMinipoolDetails) : NativeMinipoolDetails :=
  {d with
    Status := (d.StatusRaw : MinipoolStatus)
    DepositType := (d.DepositTypeRaw : MinipoolDeposit)}

/-- The per-entity body of a chunk loop: read the entity record at index
j from the shared slice, transform it and queue calls bound to it.  The
fold mirrors for j := i; j < max; j++ over a shared output array: the
record is written back with List.set and the queued calls are tagged with
their entity index. -/
def queueCalls (step : Nat → NativeMinipoolDetails → NativeMinipoolDetails × List BoundCall)
    (ds : List NativeMinipoolDetails) (idxs : List Nat) :
    List NativeMinipoolDetails × List (Nat × BoundCall) :=
  idxs.foldl
    (fun acc j =>
      let p := step j (acc.1.getD j {})
      (acc.1.set j p.1, acc.2 ++ p.2.map (fun c => (j, c))))
    (ds, [])

/-- Decode the outcome of a successful strict batch into the shared
slice: each value is written through its binding into its entity record. -/
def applyWrites (ds : List NativeMinipoolDetails)
    (ws : List ((Nat × BoundCall) × Value)) : List NativeMinipoolDetails :=
  ws.foldl
    (fun l w => l.set w.1.1 (writeField w.1.2.field w.2 (l.getD w.1.1 {})))
    ds

/-- Round-1 loop body for entity j (lines inside the round-1 chunk):
assign MinipoolAddress and Version from the enumeration outputs, then
queue the detail calls.  The error addMinipoolDetailsCalls may return is
discarded at this call site in the source. -/
def entityStep1 (env : ChainEnv) (addresses : List Address) (versions : List Nat)
    (j : Nat) (d : NativeMinipoolDetails) :
    NativeMinipoolDetails × List BoundCall :=
  let d2 := {d with MinipoolAddress := addresses.getD j 0, Version := versions.getD j 0}
  match addMinipoolDetailsCalls env d2 with
  | .ok p => p
  | .error _ => (d2, [])

/-- Round-2 loop body for entity j: reassign Version, then queue the
share calls.  The error addMinipoolShareCalls may return is discarded at
this call site in the source. -/
def entityStep2 (env : ChainEnv) (versions : List Nat)
    (j : Nat) (d : NativeMinipoolDetails) :
    NativeMinipoolDetails × List BoundCall :=
  let d2 := {d with Version := versions.getD j 0}
  match addMinipoolShareCalls env d2 with
  | .ok p => p
  | .error _ => (d2, [])

/-- One chunk of a details round: queue the calls of its index range on a
fresh multicaller, run it strictly, and on success decode every value
into the shared slice. -/
def detailsChunk (env : ChainEnv) (blk : Nat)
    (step : Nat → NativeMinipoolDetails → NativeMinipoolDetails × List BoundCall)
    (count size : Nat) (ds : List NativeMinipoolDetails) (i : Nat) :
    Option ExecutedBatch × Except String (List NativeMinipoolDetails) :=
  let q := queueCalls step ds (chunkIdxs i count size)
  let calls := q.2.map (fun w => w.2.desc)
  (some ⟨blk, true, calls⟩,
    match execStrict env blk calls with
    | none => .error "error executing multicall"
    | some vals => .ok (applyWrites q.1 (q.2.zip vals)))

/-- One scheduler step: run the chunk at start offset i against the
current shared state, append its executed round trip (if it reached the
network) to the trace, and either adopt its updated state or keep the
previous state while recording the first error. -/
def rfStep (chunk : σ → Nat → Option ExecutedBatch × Except String σ)
    (acc : List ExecutedBatch × σ × Option String) (i : Nat) :
    List ExecutedBatch × σ × Option String :=
  let p := chunk acc.2.1 i
  let tr := acc.1 ++ p.1.toList
  match p.2 with
  | .ok s2 => (tr, s2, acc.2.2)
  | .error e => (tr, acc.2.1, firstErr acc.2.2 e)

/-- Run one chunk per start offset under the errgroup:
each chunk appends its executed round trip to the trace, a failed chunk
leaves the slice as is and records the first error (errgroup.Wait
surfaces a single error once every chunk has been accounted for). -/
def roundFold (chunk : σ → Nat → Option ExecutedBatch × Except String σ)
    (starts : List Nat) (s0 : σ) :
    List ExecutedBatch × σ × Option String :=
  starts.foldl (rfStep chunk) ([], s0, none)

/-- The multicall descriptor of one version probe (method version on the
rocketVersion interface of the given address). -/
def versionDesc (addr : Address) : CallDesc :=
  ⟨.versionContract addr, "version", []⟩

/-- One chunk of getMinipoolVersionsFast: build a version contract per
address (any constructor error aborts the chunk before the round trip),
probe leniently, write successfully decoded versions, and write version 1
for every probe that reported a per-call failure. -/
def versionChunk (env : ChainEnv) (blk : Nat) (addresses : List Address)
    (vs : List Nat) (i : Nat) : Option ExecutedBatch × Except String (List Nat) :=
  let idxs := chunkIdxs i addresses.length minipoolVersionBatchSize
  if idxs.all (fun j => env.versionContractOk (addresses.getD j 0)) then
    let calls := idxs.map (fun j => versionDesc (addresses.getD j 0))
    (some ⟨blk, false, calls⟩,
      match execLenient env blk calls with
      | none => .error "error executing multicall"
      | some results =>
        .ok (setAll vs ((idxs.zip results).map
          (fun p => (p.1, match p.2 with
            | some v => v.toNat
            | none => 1)))))
  else (none, .error "error creating version contract")

/-- Get minipool versions using the multicaller
(function getMinipoolVersionsFast). -/
def getMinipoolVersionsFast (env : ChainEnv) (blk : Nat)
    (addresses : List Address) : List ExecutedBatch × Except String (List Nat) :=
  let count := addresses.length
  let z := roundFold (versionChunk env blk addresses)
    (chunkStarts count minipoolVersionBatchSize) (List.replicate count 0)
  (z.1, mkExcept z.2.2 z.2.1)

/-- The count query issued through rp.Query before enumeration. -/
def getMinipoolCountDesc : CallDesc :=
  ⟨.rocketMinipoolManager, "getMinipoolCount", []⟩

/-- The enumeration call for index j. -/
def getMinipoolAtDesc (j : Nat) : CallDesc :=
  ⟨.rocketMinipoolManager, "getMinipoolAt", [.int (Int.ofNat j)]⟩

/-- One chunk of the address enumeration: request getMinipoolAt for every
index of the chunk, strictly, and write the decoded addresses into the
pre-allocated slice. -/
def addressChunk (env : ChainEnv) (blk count : Nat)
    (addrs : List Address) (i : Nat) :
    Option ExecutedBatch × Except String (List Address) :=
  let idxs := chunkIdxs i count minipoolAddressBatchSize
  let calls := idxs.map getMinipoolAtDesc
  (some ⟨blk, true, calls⟩,
    match execStrict env blk calls with
    | none => .error "error executing multicall"
    | some vals => .ok (setAll addrs (idxs.zip (vals.map Value.toAddr))))

/-- Get all minipool addresses using the multicaller
(function getAllMinipoolAddressesFast).  The count is read first through
rp.Query.  Modelled from the spec: rp.Query executes the queued calls as
one strict batch at the block height of its CallOpts (spec, CallBatch
strict mode and the count(blockHeight) collaborator). -/
def getAllMinipoolAddressesFast (env : ChainEnv) (blk : Nat) :
    List ExecutedBatch × Except String (List Address) :=
  let countBatch : ExecutedBatch := ⟨blk, true, [getMinipoolCountDesc]⟩
  match execStrict env blk [getMinipoolCountDesc] with
  | none => ([countBatch], .error "error getting minipool count")
  | some vs =>
    let count := (vs.headD (.vInt 0)).toNat
    let z := roundFold (addressChunk env blk count)
      (chunkStarts count minipoolAddressBatchSize) (List.replicate count 0)
    (countBatch :: z.1, mkExcept z.2.2 z.2.1)

/-- contracts.BalanceBatcher.GetEthBalances.  Modelled from the spec: an
external call-batching facility that returns the balance of every listed
address, index aligned, at the fixed block height, or one error. -/
def getEthBalances (env : ChainEnv) (blk : Nat) (addresses : List Address) :
    ExecutedBatch × Option (List Int) :=
  (⟨blk, true, addresses.map (fun a => ⟨.balanceBatcher, "getEthBalance", [.addr a]⟩)⟩,
    if env.balanceBatcherOk then some (addresses.map (env.ethBalance blk)) else none)

/-- The loop for i := range minipoolDetails assigning Balance from the
batcher output. -/
def setBalances (ds : List NativeMinipoolDetails) (balances : List Int) :
    List NativeMinipoolDetails :=
  (queueCalls (fun j d => ({d with Balance := some (balances.getD j 0)}, []))
    ds (List.range ds.length)).1

/-- The round-1 chunk runner of getBulkMinipoolDetails. -/
def bulkChunk1 (env : ChainEnv) (blk : Nat) (addresses : List Address)
    (versions : List Nat) :
    List NativeMinipoolDetails → Nat →
      Option ExecutedBatch × Except String (List NativeMinipoolDetails) :=
  detailsChunk env blk (entityStep1 env addresses versions)
    addresses.length minipoolBatchSize

/-- The round-2 chunk runner of getBulkMinipoolDetails. -/
def bulkChunk2 (env : ChainEnv) (blk : Nat) (versions : List Nat) (count : Nat) :
    List NativeMinipoolDetails → Nat →
      Option ExecutedBatch × Except String (List NativeMinipoolDetails) :=
  detailsChunk env blk (entityStep2 env versions) count minipoolBatchSize

/-- The pre-allocated details slice after the Balance assignment loop
(for i := range minipoolDetails, assign the batcher output at i). -/
def bulkState0 (env : ChainEnv) (blk : Nat) (addresses : List Address) :
    List NativeMinipoolDetails :=
  setBalances (List.replicate addresses.length {})
    (addresses.map (env.ethBalance blk))

/-- Round 1 of getBulkMinipoolDetails, run over the balance-primed slice. -/
def bulkZ1 (env : ChainEnv) (blk : Nat) (addresses : List Address)
    (versions : List Nat) :
    List ExecutedBatch × List NativeMinipoolDetails × Option String :=
  roundFold (bulkChunk1 env blk addresses versions)
    (chunkStarts addresses.length minipoolBatchSize)
    (bulkState0 env blk addresses)

/-- Round 2 of getBulkMinipoolDetails, run over the round-1 output. -/
def bulkZ2 (env : ChainEnv) (blk : Nat) (addresses : List Address)
    (versions : List Nat) :
    List ExecutedBatch × List NativeMinipoolDetails × Option String :=
  roundFold (bulkChunk2 env blk versions addresses.length)
    (chunkStarts addresses.length minipoolBatchSize)
    (bulkZ1 env blk addresses versions).2.1

/-- Get multiple minipool details at once
(function getBulkMinipoolDetails): fetch raw balances (a failed batcher
call aborts immediately), run round 1 (most of the details), run round 2
(NodeShare and UserShare once the refund amount has been populated), then
postprocess every record. -/
def getBulkMinipoolDetails (env : ChainEnv) (blk : Nat)
    (addresses : List Address) (versions : List Nat) :
    List ExecutedBatch × Except String (List NativeMinipoolDetails) :=
  let bal := getEthBalances env blk addresses
  if env.balanceBatcherOk then
    let z1 := bulkZ1 env blk addresses versions
    match z1.2.2 with
    | some e => (bal.1 :: z1.1, .error e)
    | none =>
      let z2 := bulkZ2 env blk addresses versions
      match z2.2.2 with
      | some e => (bal.1 :: (z1.1 ++ z2.1), .error e)
      | none => (bal.1 :: (z1.1 ++ z2.1), .ok (z2.2.1.map fixupMinipoolDetails))
  else ([bal.1], .error "error getting minipool balances")

/-- Gets all minipool details using the efficient multicall contract
(function GetAllNativeMinipoolDetails).  A single CallOpts pinned to
contracts.ElBlockNumber is built once and passed to every sub-operation. -/
def GetAllNativeMinipoolDetails (env : ChainEnv) :
    List ExecutedBatch × Except String (List NativeMinipoolDetails) :=
  let blk := env.elBlockNumber
  let za := getAllMinipoolAddressesFast env blk
  match za.2 with
  | .error e => (za.1, .error e)
  | .ok addresses =>
    let zv := getMinipoolVersionsFast env blk addresses
    match zv.2 with
    | .error e => (za.1 ++ zv.1, .error e)
    | .ok versions =>
      let zb := getBulkMinipoolDetails env blk addresses versions
      (za.1 ++ zv.1 ++ zb.1, zb.2)

/-- Gets the details for a single minipool
(function GetNativeMinipoolDetails).  The version is probed first through
rp.Query; a failing probe is an error here (the probe-miss-means-legacy
fallback exists only in getMinipoolVersionsFast).  Modelled from the
spec: rp.Query executes the queued calls as one strict batch at the block
height of its CallOpts (spec, CallBatch strict mode). -/
def GetNativeMinipoolDetails (env : ChainEnv) (minipoolAddress : Address) :
    List ExecutedBatch × Except String NativeMinipoolDetails :=
  let blk := env.elBlockNumber
  let probe := [versionDesc minipoolAddress]
  let probeBatch : ExecutedBatch := ⟨blk, true, probe⟩
  match execStrict env blk probe with
  | none => ([probeBatch], .error "error getting minipool version")
  | some vs =>
    let version := (vs.headD (.vInt 0)).toNat
    let d0 : NativeMinipoolDetails :=
      {MinipoolAddress := minipoolAddress, Version := version}
    -- The error addMinipoolDetailsCalls may return is discarded at this
    -- call site in the source; the multicaller is then executed as is.
    let p := match addMinipoolDetailsCalls env d0 with
      | .ok p => p
      | .error _ => (d0, [])
    let calls := p.2.map (fun c => c.desc)
    let mainBatch : ExecutedBatch := ⟨blk, true, calls⟩
    match execStrict env blk calls with
    | none => ([probeBatch, mainBatch], .error "error executing multicall")
    | some vals =>
      let d2 := (p.2.zip vals).foldl
        (fun d w => writeField w.1.field w.2 d) p.1
      ([probeBatch, mainBatch], .ok (fixupMinipoolDetails d2))

/-! ### Generic lemmas about the batching combinators -/

/-- Projection of the entity stored at index j of a shared slice. -/
def pget (g : α → β) (l : List α) (j : Nat) : Option β := l[j]?.map g

theorem pget_getD (g : α → β) (l : List α) (j : Nat) (x : β) (d : α)
    (h : pget g l j = some x) : g (l.getD j d) = x := by
  rcases hj : l[j]? with _ | a
  · rw [pget, hj] at h; cases h
  · rw [pget, hj] at h
    rw [List.getD_eq_getElem?_getD, hj]
    simpa using h

theorem pget_lt_isSome (g : α → β) (l : List α) (j : Nat) (h : j < l.length) :
    ∃ x, pget g l j = some x := by
  rcases hj : l[j]? with _ | a
  · rw [List.getElem?_eq_none_iff] at hj; omega
  · exact ⟨g a, by rw [pget, hj]; rfl⟩

theorem setAll_cons (l : List α) (p : Nat × α) (t : List (Nat × α)) :
    setAll l (p :: t) = setAll (l.set p.1 p.2) t := rfl

theorem zip_self_map (l : List α) (f : α → β) :
    l.zip (l.map f) = l.map (fun a => (a, f a)) := by
  induction l with
  | nil => rfl
  | cons x t ih => simp [ih]

theorem length_setAll (l : List α) (ups : List (Nat × α)) :
    (setAll l ups).length = l.length := by
  induction ups generalizing l with
  | nil => rfl
  | cons p t ih => rw [setAll_cons, ih, List.length_set]

/-- Writing the pointwise values c k at the indices of idxs into a
pre-allocated slice: every listed in-range index holds c of itself
afterwards, everything else is untouched. -/
theorem setAll_map_getElem? (c : Nat → α) (idxs : List Nat) (l : List α) (j : Nat) :
    (setAll l (idxs.map (fun k => (k, c k))))[j]? =
      if j ∈ idxs ∧ j < l.length then some (c j) else l[j]? := by
  induction idxs generalizing l with
  | nil => simp [setAll]
  | cons k t ih =>
    rw [List.map_cons, setAll_cons, ih, List.length_set]
    by_cases hjt : j ∈ t
    · by_cases hlen : j < l.length
      · simp [hjt, hlen]
      · have h1 : l[j]? = none := List.getElem?_eq_none (by omega)
        have h2 : (l.set k (c k))[j]? = none :=
          List.getElem?_eq_none (by rw [List.length_set]; omega)
        simp [hjt, hlen, h1, h2]
    · by_cases hjk : j = k
      · subst hjk
        by_cases hlen : j < l.length
        · simp [hjt, hlen, List.getElem?_set]
        · simp [hjt, hlen, List.getElem?_set]
          omega
      · have hnc : ¬ j ∈ k :: t := by simp [hjk, hjt]
        simp [hjt, hnc, List.getElem?_set, Ne.symm hjk]

/-- The slice component of the chunk loop: successive List.set writes of
the transformed record at each index. -/
def sliceFold (step : Nat → NativeMinipoolDetails → NativeMinipoolDetails × List BoundCall)
    (ds : List NativeMinipoolDetails) (idxs : List Nat) : List NativeMinipoolDetails :=
  idxs.foldl (fun l j => l.set j (step j (l.getD j {})).1) ds

theorem queueCalls_fst (step) (ds : List NativeMinipoolDetails) (idxs : List Nat) :
    (queueCalls step ds idxs).1 = sliceFold step ds idxs := by
  suffices h : ∀ idxs (ds : List NativeMinipoolDetails) (q : List (Nat × BoundCall)),
      (idxs.foldl
        (fun acc j =>
          let p := step j (acc.1.getD j {})
          (acc.1.set j p.1, acc.2 ++ p.2.map (fun c => (j, c))))
        (ds, q)).1 = sliceFold step ds idxs by
    exact h idxs ds []
  intro idxs
  induction idxs with
  | nil => intro ds q; rfl
  | cons k t ih => intro ds q; exact ih _ _

theorem length_sliceFold (step) (ds : List NativeMinipoolDetails) (idxs : List Nat) :
    (sliceFold step ds idxs).length = ds.length := by
  induction idxs generalizing ds with
  | nil => rfl
  | cons k t ih =>
    show (sliceFold step (ds.set k _) t).length = _
    rw [ih, List.length_set]

theorem sliceFold_getElem?_notmem (step) (ds : List NativeMinipoolDetails)
    (idxs : List Nat) (j : Nat) (h : ¬ j ∈ idxs) :
    (sliceFold step ds idxs)[j]? = ds[j]? := by
  induction idxs generalizing ds with
  | nil => rfl
  | cons k t ih =>
    have hjk : ¬ j = k := fun he => h (he ▸ List.mem_cons_self k t)
    have hjt : ¬ j ∈ t := fun ht => h (List.mem_cons_of_mem k ht)
    show (sliceFold step (ds.set k _) t)[j]? = _
    rw [ih _ hjt, List.getElem?_set_ne (fun he => hjk he.symm)]

/-- If the loop body gives field g the pointwise value c j at index j
(whatever record it read), then after the loop every listed in-range
index projects to c of itself. -/
theorem sliceFold_pget_const {β} (g : NativeMinipoolDetails → β) (c : Nat → β) (step)
    (hstep : ∀ j d, g ((step j d).1) = c j)
    (idxs : List Nat) (ds : List NativeMinipoolDetails) (j : Nat)
    (hj : j ∈ idxs) (hlen : j < ds.length) :
    pget g (sliceFold step ds idxs) j = some (c j) := by
  induction idxs generalizing ds with
  | nil => cases hj
  | cons k t ih =>
    show pget g (sliceFold step (ds.set k _) t) j = _
    by_cases hjt : j ∈ t
    · exact ih _ hjt (by rw [List.length_set]; exact hlen)
    · have hjk : j = k := by
        rcases List.mem_cons.mp hj with h | h
        · exact h
        · exact absurd h hjt
      subst hjk
      rw [pget, sliceFold_getElem?_notmem _ _ _ _ hjt,
        List.getElem?_set_self hlen, Option.map_some', hstep]

/-- If the loop body leaves field g of the record unchanged, then the
whole loop leaves the projection of every index unchanged. -/
theorem sliceFold_pget_inv {β} (g : NativeMinipoolDetails → β) (step)
    (hstep : ∀ j d, g ((step j d).1) = g d)
    (idxs : List Nat) (ds : List NativeMinipoolDetails) (j : Nat) :
    pget g (sliceFold step ds idxs) j = pget g ds j := by
  induction idxs generalizing ds with
  | nil => rfl
  | cons k t ih =>
    show pget g (sliceFold step (ds.set k _) t) j = _
    rw [ih]
    by_cases hjk : k = j
    · subst hjk
      by_cases hlen : k < ds.length
      · rw [pget, pget, List.getElem?_set_self hlen, Option.map_some', hstep,
          List.getD_eq_getElem?_getD]
        rcases hx : ds[k]? with _ | x
        · rw [List.getElem?_eq_none_iff] at hx; omega
        · simp
      · rw [pget, pget, List.getElem?_set, if_pos rfl, if_neg hlen]
        rw [List.getElem?_eq_none_iff.mpr (by omega)]
    · rw [pget, pget, List.getElem?_set_ne hjk]

theorem length_applyWrites (ds : List NativeMinipoolDetails)
    (ws : List ((Nat × BoundCall) × Value)) :
    (applyWrites ds ws).length = ds.length := by
  induction ws generalizing ds with
  | nil => rfl
  | cons w t ih =>
    show (applyWrites (ds.set w.1.1 _) t).length = _
    rw [ih, List.length_set]

/-- Decoding batch outcomes leaves every projection untouched by all the
involved bindings unchanged, at every index. -/
theorem applyWrites_pget_inv {β} (g : NativeMinipoolDetails → β)
    (ws : List ((Nat × BoundCall) × Value)) :
    (∀ w ∈ ws, ∀ d, g (writeField w.1.2.field w.2 d) = g d) →
    ∀ (ds : List NativeMinipoolDetails) (j : Nat),
      pget g (applyWrites ds ws) j = pget g ds j := by
  induction ws with
  | nil => intro _ ds j; rfl
  | cons w t ih =>
    intro hg ds j
    show pget g (applyWrites (ds.set w.1.1 _) t) j = _
    rw [ih (fun x hx d => hg x (List.mem_cons_of_mem w hx) d)]
    have hw := hg w (List.mem_cons_self w t)
    by_cases hjk : w.1.1 = j
    · subst hjk
      by_cases hlen : w.1.1 < ds.length
      · rw [pget, pget, List.getElem?_set_self hlen, Option.map_some', hw,
          List.getD_eq_getElem?_getD]
        rcases hx : ds[w.1.1]? with _ | x
        · rw [List.getElem?_eq_none_iff] at hx; omega
        · simp
      · rw [pget, pget, List.getElem?_set, if_pos rfl, if_neg hlen]
        rw [List.getElem?_eq_none_iff.mpr (by omega)]
    · rw [pget, pget, List.getElem?_set_ne hjk]

/-- Every call queued by the chunk loop satisfies whatever every loop
body emission satisfies. -/
theorem queueCalls_snd_forall (P : BoundCall → Prop) (step)
    (hstep : ∀ j d, ∀ c ∈ (step j d).2, P c)
    (ds : List NativeMinipoolDetails) (idxs : List Nat) :
    ∀ w ∈ (queueCalls step ds idxs).2, P w.2 := by
  suffices h : ∀ (idxs : List Nat) (ds : List NativeMinipoolDetails)
      (q : List (Nat × BoundCall)),
      (∀ w ∈ q, P w.2) →
      ∀ w ∈ (idxs.foldl
        (fun acc j =>
          let p := step j (acc.1.getD j {})
          (acc.1.set j p.1, acc.2 ++ p.2.map (fun c => (j, c))))
        (ds, q)).2, P w.2 by
    exact h idxs ds [] (by intro w hw; cases hw)
  intro idxs
  induction idxs with
  | nil => intro ds q hq; exact hq
  | cons k t ih =>
    intro ds q hq
    refine ih _ _ ?_
    intro w hw
    rcases List.mem_append.mp hw with h | h
    · exact hq w h
    · rcases List.mem_map.mp h with ⟨c, hc, rfl⟩
      exact hstep k _ c hc

/-- The descriptors queued by a chunk loop whose per-entity emission is
a function of the index alone: their concatenation in index order. -/
theorem queueCalls_snd_descs (cf : Nat → List CallDesc) (step)
    (hstep : ∀ j d, ((step j d).2).map BoundCall.desc = cf j)
    (ds : List NativeMinipoolDetails) (idxs : List Nat) :
    ((queueCalls step ds idxs).2).map (fun w => w.2.desc) = (idxs.map cf).flatten := by
  suffices h : ∀ (idxs : List Nat) (ds : List NativeMinipoolDetails)
      (q : List (Nat × BoundCall)),
      ((idxs.foldl
        (fun acc j =>
          let p := step j (acc.1.getD j {})
          (acc.1.set j p.1, acc.2 ++ p.2.map (fun c => (j, c))))
        (ds, q)).2).map (fun w => w.2.desc)
      = q.map (fun w => w.2.desc) ++ (idxs.map cf).flatten by
    have h0 := h idxs ds []
    rw [List.map_nil, List.nil_append] at h0
    exact h0
  intro idxs
  induction idxs with
  | nil => intro ds q; simp
  | cons k t ih =>
    intro ds q
    show ((t.foldl _
      (ds.set k (step k (ds.getD k {})).1,
        q ++ ((step k (ds.getD k {})).2).map (fun c => (k, c)))).2).map
      (fun w => w.2.desc) = _
    rw [ih]
    simp only [List.map_append, List.map_cons, List.flatten_cons, List.map_map]
    rw [List.append_assoc]
    congr 1
    congr 1
    have h1 := hstep k (ds.getD k {})
    calc ((step k (ds.getD k {})).2).map
          ((fun w : Nat × BoundCall => w.2.desc) ∘ fun c => (k, c))
        = ((step k (ds.getD k {})).2).map BoundCall.desc := by rfl
      _ = cf k := h1

/-- The state a successful chunk leaves behind; a failed chunk leaves the
shared state untouched. -/
def okStep (chunk : σ → Nat → Option ExecutedBatch × Except String σ)
    (s : σ) (i : Nat) : σ :=
  match (chunk s i).2 with
  | .ok s2 => s2
  | .error _ => s

theorem firstErr_isSome (o : Option String) (e : String) :
    (firstErr o e).isSome = true := by
  cases o <;> rfl

theorem rfStep_trace (chunk : σ → Nat → Option ExecutedBatch × Except String σ)
    (acc : List ExecutedBatch × σ × Option String) (i : Nat) :
    (rfStep chunk acc i).1 = acc.1 ++ (chunk acc.2.1 i).1.toList := by
  rcases h2 : (chunk acc.2.1 i).2 with e | s2 <;> simp [rfStep, h2]

theorem okStep_ok (chunk : σ → Nat → Option ExecutedBatch × Except String σ)
    (s : σ) (i : Nat) (s2 : σ) (h2 : (chunk s i).2 = .ok s2) :
    okStep chunk s i = s2 := by
  simp [okStep, h2]

theorem okStep_error (chunk : σ → Nat → Option ExecutedBatch × Except String σ)
    (s : σ) (i : Nat) (e : String) (h2 : (chunk s i).2 = .error e) :
    okStep chunk s i = s := by
  simp [okStep, h2]

theorem rfStep_state (chunk : σ → Nat → Option ExecutedBatch × Except String σ)
    (acc : List ExecutedBatch × σ × Option String) (i : Nat) :
    (rfStep chunk acc i).2.1 = okStep chunk acc.2.1 i := by
  rcases h2 : (chunk acc.2.1 i).2 with e | s2 <;>
    simp [rfStep, okStep, h2]

theorem rfStep_err_ok (chunk : σ → Nat → Option ExecutedBatch × Except String σ)
    (acc : List ExecutedBatch × σ × Option String) (i : Nat) (s2 : σ)
    (h2 : (chunk acc.2.1 i).2 = .ok s2) :
    (rfStep chunk acc i).2.2 = acc.2.2 := by
  simp [rfStep, h2]

theorem rfStep_err_error (chunk : σ → Nat → Option ExecutedBatch × Except String σ)
    (acc : List ExecutedBatch × σ × Option String) (i : Nat) (e : String)
    (h2 : (chunk acc.2.1 i).2 = .error e) :
    (rfStep chunk acc i).2.2 = firstErr acc.2.2 e := by
  simp [rfStep, h2]

/-- The shared-state trajectory ignores the trace and error bookkeeping. -/
theorem foldl_rfStep_state (chunk : σ → Nat → Option ExecutedBatch × Except String σ)
    (starts : List Nat) :
    ∀ acc, (starts.foldl (rfStep chunk) acc).2.1 =
      starts.foldl (okStep chunk) acc.2.1 := by
  induction starts with
  | nil => intro acc; rfl
  | cons i t ih =>
    intro acc
    rw [List.foldl_cons, List.foldl_cons, ih, rfStep_state]

theorem roundFold_state (chunk : σ → Nat → Option ExecutedBatch × Except String σ)
    (starts : List Nat) (s0 : σ) :
    (roundFold chunk starts s0).2.1 = starts.foldl (okStep chunk) s0 :=
  foldl_rfStep_state chunk starts ([], s0, none)

/-- A recorded error is never forgotten by later chunks. -/
theorem foldl_rfStep_err_isSome (chunk : σ → Nat → Option ExecutedBatch × Except String σ)
    (starts : List Nat) :
    ∀ acc, acc.2.2.isSome = true →
      (starts.foldl (rfStep chunk) acc).2.2.isSome = true := by
  induction starts with
  | nil => intro acc h; exact h
  | cons i t ih =>
    intro acc h
    rw [List.foldl_cons]
    refine ih _ ?_
    rcases h2 : (chunk acc.2.1 i).2 with e | s2
    · rw [rfStep_err_error chunk acc i e h2]
      exact firstErr_isSome _ _
    · rw [rfStep_err_ok chunk acc i s2 h2]
      exact h

/-- If some chunk of the schedule fails whatever state it is handed, the
scheduler reports an error. -/
theorem roundFold_err_of_chunkFail
    (chunk : σ → Nat → Option ExecutedBatch × Except String σ)
    (starts : List Nat) (s0 : σ) (i0 : Nat) (hmem : i0 ∈ starts)
    (hfail : ∀ s, isErrE ((chunk s i0).2) = true) :
    (roundFold chunk starts s0).2.2.isSome = true := by
  suffices h : ∀ (starts : List Nat) acc, i0 ∈ starts →
      ((starts.foldl (rfStep chunk) acc).2.2).isSome = true from
    h starts ([], s0, none) hmem
  intro starts
  induction starts with
  | nil => intro acc h; cases h
  | cons i t ih =>
    intro acc hmem
    rw [List.foldl_cons]
    by_cases hi : i0 = i
    · subst hi
      refine foldl_rfStep_err_isSome chunk t _ ?_
      have hf := hfail acc.2.1
      rcases h2 : (chunk acc.2.1 i0).2 with e | s2
      · rw [rfStep_err_error chunk acc i0 e h2]
        exact firstErr_isSome _ _
      · rw [h2] at hf
        simp [isErrE] at hf
    · rcases List.mem_cons.mp hmem with h | h
      · exact absurd h hi
      · exact ih _ h

/-- If every chunk succeeds on every state, the scheduler reports none. -/
theorem roundFold_err_none (chunk : σ → Nat → Option ExecutedBatch × Except String σ)
    (starts : List Nat) (s0 : σ)
    (hok : ∀ s i, isOkE ((chunk s i).2) = true) :
    (roundFold chunk starts s0).2.2 = none := by
  suffices h : ∀ (starts : List Nat) acc, acc.2.2 = none →
      (starts.foldl (rfStep chunk) acc).2.2 = none from
    h starts ([], s0, none) rfl
  intro starts
  induction starts with
  | nil => intro acc h; exact h
  | cons i t ih =>
    intro acc h
    rw [List.foldl_cons]
    refine ih _ ?_
    have hk := hok acc.2.1 i
    rcases h2 : (chunk acc.2.1 i).2 with e | s2
    · rw [h2] at hk
      simp [isOkE] at hk
    · rw [rfStep_err_ok chunk acc i s2 h2]
      exact h

/-- Every round trip the scheduler issues carries the block height the
chunks were built with. -/
theorem roundFold_trace_block (chunk : σ → Nat → Option ExecutedBatch × Except String σ)
    (starts : List Nat) (s0 : σ) (blk : Nat)
    (hb : ∀ s i b, (chunk s i).1 = some b → b.block = blk) :
    ∀ b ∈ (roundFold chunk starts s0).1, b.block = blk := by
  suffices h : ∀ (starts : List Nat) acc, (∀ b ∈ acc.1, b.block = blk) →
      ∀ b ∈ (starts.foldl (rfStep chunk) acc).1, b.block = blk from
    h starts ([], s0, none) (by intro b hb2; cases hb2)
  intro starts
  induction starts with
  | nil => intro acc h; exact h
  | cons i t ih =>
    intro acc hacc
    rw [List.foldl_cons]
    refine ih _ ?_
    intro b hmem
    rw [rfStep_trace] at hmem
    rcases List.mem_append.mp hmem with h | h
    · exact hacc b h
    · rcases hc : (chunk acc.2.1 i).1 with _ | b2
      · rw [hc] at h; cases h
      · rw [hc] at h
        rcases List.mem_singleton.mp h with rfl
        exact hb _ _ _ hc

/-- One executed round trip per chunk when every chunk reaches the
network. -/
theorem roundFold_trace_length (chunk : σ → Nat → Option ExecutedBatch × Except String σ)
    (starts : List Nat) (s0 : σ)
    (hb : ∀ s i, ((chunk s i).1).isSome = true) :
    (roundFold chunk starts s0).1.length = starts.length := by
  suffices h : ∀ (starts : List Nat) acc,
      ((starts.foldl (rfStep chunk) acc).1).length = acc.1.length + starts.length from
    by simpa using h starts ([], s0, none)
  intro starts
  induction starts with
  | nil => intro acc; simp
  | cons i t ih =>
    intro acc
    rw [List.foldl_cons, ih, rfStep_trace, List.length_append]
    have := hb acc.2.1 i
    rcases hc : (chunk acc.2.1 i).1 with _ | b2
    · rw [hc] at this; cases this
    · simp [List.length_cons]
      omega

/-- A projection every successful chunk leaves unchanged at every index
survives the whole schedule (failed chunks leave the state untouched by
construction). -/
theorem roundFold_pget_inv {A β} (g : A → β)
    (chunk : List A → Nat → Option ExecutedBatch × Except String (List A))
    (hinv : ∀ s i s2, (chunk s i).2 = .ok s2 → ∀ j, pget g s2 j = pget g s j)
    (starts : List Nat) (s0 : List A) (j : Nat) :
    pget g (roundFold chunk starts s0).2.1 j = pget g s0 j := by
  rw [roundFold_state]
  induction starts generalizing s0 with
  | nil => rfl
  | cons i t ih =>
    rw [List.foldl_cons, ih]
    rcases h2 : (chunk s0 i).2 with e | s2
    · rw [okStep_error chunk s0 i e h2]
    · rw [okStep_ok chunk s0 i s2 h2]
      exact hinv s0 i s2 h2 j

/-- The slice length every successful chunk preserves survives the whole
schedule. -/
theorem roundFold_length {A} (chunk : List A → Nat → Option ExecutedBatch × Except String (List A))
    (hlen : ∀ s i s2, (chunk s i).2 = .ok s2 → s2.length = s.length)
    (starts : List Nat) (s0 : List A) :
    (roundFold chunk starts s0).2.1.length = s0.length := by
  rw [roundFold_state]
  induction starts generalizing s0 with
  | nil => rfl
  | cons i t ih =>
    rw [List.foldl_cons, ih]
    rcases h2 : (chunk s0 i).2 with e | s2
    · rw [okStep_error chunk s0 i e h2]
    · rw [okStep_ok chunk s0 i s2 h2]
      exact hlen s0 i s2 h2

/-- The workhorse: if every successful chunk preserves an invariant I,
preserves the length, establishes the pointwise value c j for every
in-range index of its own range, and leaves the projection of every other
index unchanged, then after a schedule that reported no error the final
slice holds c j at every index covered by some chunk of the schedule. -/
theorem roundFold_estab {A β} (g : A → β) (c : Nat → β) (idx : Nat → List Nat)
    (I : List A → Prop)
    (chunk : List A → Nat → Option ExecutedBatch × Except String (List A))
    (hchunk : ∀ s i s2, I s → (chunk s i).2 = .ok s2 →
      I s2 ∧ s2.length = s.length ∧
      (∀ j, j ∈ idx i → j < s.length → pget g s2 j = some (c j)) ∧
      (∀ j, ¬ j ∈ idx i → pget g s2 j = pget g s j))
    (starts : List Nat) (s0 : List A) (hI0 : I s0)
    (hnone : (roundFold chunk starts s0).2.2 = none) :
    I (roundFold chunk starts s0).2.1 ∧
    (roundFold chunk starts s0).2.1.length = s0.length ∧
    ∀ j, j ∈ (starts.map idx).flatten → j < s0.length →
      pget g (roundFold chunk starts s0).2.1 j = some (c j) := by
  suffices h : ∀ (starts : List Nat) (acc : List ExecutedBatch × List A × Option String)
      (J : List Nat), I acc.2.1 →
      (∀ j ∈ J, j < acc.2.1.length → pget g acc.2.1 j = some (c j)) →
      (starts.foldl (rfStep chunk) acc).2.2 = none →
      I (starts.foldl (rfStep chunk) acc).2.1 ∧
      (starts.foldl (rfStep chunk) acc).2.1.length = acc.2.1.length ∧
      ∀ j, (j ∈ J ∨ j ∈ (starts.map idx).flatten) → j < acc.2.1.length →
        pget g (starts.foldl (rfStep chunk) acc).2.1 j = some (c j) by
    have h0 := h starts ([], s0, none) [] hI0 (by intro j hj; cases hj) hnone
    refine ⟨h0.1, h0.2.1, ?_⟩
    intro j hj hlt
    exact h0.2.2 j (Or.inr hj) hlt
  intro starts
  induction starts with
  | nil =>
    intro acc J hI hJ _
    refine ⟨hI, rfl, ?_⟩
    intro j hj hlt
    rcases hj with hj | hj
    · exact hJ j hj hlt
    · simp at hj
  | cons i t ih =>
    intro acc J hI hJ hnone
    rw [List.foldl_cons] at hnone ⊢
    rcases h2 : (chunk acc.2.1 i).2 with e | s2
    · exfalso
      have hs : ((t.foldl (rfStep chunk) (rfStep chunk acc i)).2.2).isSome = true := by
        refine foldl_rfStep_err_isSome chunk t _ ?_
        rw [rfStep_err_error chunk acc i e h2]
        exact firstErr_isSome _ _
      rw [hnone] at hs
      cases hs
    · obtain ⟨hI2, hlen2, hest, hpres⟩ := hchunk acc.2.1 i s2 hI h2
      have hstate : (rfStep chunk acc i).2.1 = s2 := by
        rw [rfStep_state]
        exact okStep_ok chunk acc.2.1 i s2 h2
      have hJ2 : ∀ j ∈ J ++ idx i, j < (rfStep chunk acc i).2.1.length →
          pget g (rfStep chunk acc i).2.1 j = some (c j) := by
        intro j hj hlt
        rw [hstate] at hlt ⊢
        rw [hlen2] at hlt
        by_cases hin : j ∈ idx i
        · exact hest j hin hlt
        · rcases List.mem_append.mp hj with hj | hj
          · rw [hpres j hin]
            exact hJ j hj hlt
          · exact absurd hj hin
      obtain ⟨ha, hb, hc⟩ := ih (rfStep chunk acc i) (J ++ idx i) (hstate ▸ hI2) hJ2 hnone
      refine ⟨ha, ?_, ?_⟩
      · rw [hb, hstate, hlen2]
      · intro j hj hlt
        have hlt2 : j < (rfStep chunk acc i).2.1.length := by
          rw [hstate, hlen2]; exact hlt
        refine hc j ?_ hlt2
        rcases hj with hj | hj
        · exact Or.inl (List.mem_append.mpr (Or.inl hj))
        · rw [List.map_cons, List.flatten_cons] at hj
          rcases List.mem_append.mp hj with hj | hj
          · exact Or.inl (List.mem_append.mpr (Or.inr hj))
          · exact Or.inr hj

/-- The chunk index ranges of the batching loops tile the index space:
their concatenation in schedule order is exactly the list of all indices
below count. -/
theorem chunkIdxs_flatten (count size : Nat) (hs : 0 < size) :
    ((chunkStarts count size).map (fun i => chunkIdxs i count size)).flatten
      = List.range count := by
  have key : ∀ n : Nat,
      (((List.range n).map (fun k => k * size)).map (fun i => chunkIdxs i count size)).flatten
        = List.range' 0 (min (n * size) count) := by
    intro n
    induction n with
    | zero => simp
    | succ m ihm =>
      rw [List.range_succ, List.map_append, List.map_append, List.flatten_append, ihm]
      simp only [List.map_cons, List.map_nil, List.flatten_cons, List.flatten_nil,
        List.append_nil]
      by_cases hm : m * size < count
      · have hmin : min (m * size) count = m * size := by omega
        rw [hmin, chunkIdxs]
        have harr := List.range'_append 0 (m * size) (min (m * size + size) count - m * size) 1
        simp only [one_mul, Nat.zero_add] at harr
        rw [harr]
        congr 1
        have hmul : (m + 1) * size = m * size + size := by ring
        omega
      · have hmin : min (m * size) count = count := by omega
        have hempty : min (m * size + size) count - m * size = 0 := by omega
        rw [hmin, chunkIdxs, hempty]
        simp only [List.range'_zero, List.append_nil]
        congr 1
        have hmul : (m + 1) * size = m * size + size := by ring
        omega
  rw [chunkStarts, key (numChunks count size)]
  have hcover : count ≤ numChunks count size * size := by
    rw [numChunks]
    have hdm := Nat.div_add_mod (count + size - 1) size
    have hmlt : (count + size - 1) % size < size := Nat.mod_lt _ hs
    have hcomm : (count + size - 1) / size * size
        = size * ((count + size - 1) / size) := Nat.mul_comm _ _
    omega
  rw [List.range_eq_range']
  congr 1
  omega

/-! ### Frame lemmas for the concrete record operations -/

/-- No multicall binding ever writes MinipoolAddress, Version, Balance or
DistributableBalance: those four fields are only assigned directly. -/
theorem writeField_core_frame (f : FieldId) (v : Value) (d : NativeMinipoolDetails) :
    (writeField f v d).MinipoolAddress = d.MinipoolAddress ∧
    (writeField f v d).Version = d.Version ∧
    (writeField f v d).Balance = d.Balance ∧
    (writeField f v d).DistributableBalance = d.DistributableBalance := by
  cases f <;> exact ⟨rfl, rfl, rfl, rfl⟩

/-- The two share bindings of round 2 leave NodeRefundBalance untouched. -/
theorem writeField_share_refund_frame (f : FieldId) (v : Value)
    (d : NativeMinipoolDetails)
    (hf : f = FieldId.fNodeShareOfBalance ∨ f = FieldId.fUserShareOfBalance) :
    (writeField f v d).NodeRefundBalance = d.NodeRefundBalance := by
  rcases hf with rfl | rfl <;> rfl

/-- Projection kept through writeField: Balance stays what the balance
batcher assigned. -/
theorem writeField_Balance (f : FieldId) (v : Value) (d : NativeMinipoolDetails) :
    (writeField f v d).Balance = d.Balance :=
  (writeField_core_frame f v d).2.2.1

/-- addMinipoolDetailsCalls never reassigns MinipoolAddress, Version or
Balance on its success path. -/
theorem addMinipoolDetailsCalls_frame (env : ChainEnv) (d : NativeMinipoolDetails)
    (r : NativeMinipoolDetails × List BoundCall)
    (h : addMinipoolDetailsCalls env d = .ok r) :
    r.1.MinipoolAddress = d.MinipoolAddress ∧ r.1.Version = d.Version ∧
    r.1.Balance = d.Balance := by
  rw [addMinipoolDetailsCalls] at h
  by_cases hok : env.minipoolFromVersionOk d.MinipoolAddress d.Version
  · rw [if_pos hok] at h
    by_cases hv : d.Version < 3
    · rw [if_pos hv] at h
      cases h
      exact ⟨rfl, rfl, rfl⟩
    · rw [if_neg hv] at h
      cases h
      exact ⟨rfl, rfl, rfl⟩
  · rw [if_neg hok] at h
    cases h

/-- addMinipoolShareCalls never reassigns MinipoolAddress, Version,
Balance or NodeRefundBalance on its success path. -/
theorem addMinipoolShareCalls_frame (env : ChainEnv) (d : NativeMinipoolDetails)
    (r : NativeMinipoolDetails × List BoundCall)
    (h : addMinipoolShareCalls env d = .ok r) :
    r.1.MinipoolAddress = d.MinipoolAddress ∧ r.1.Version = d.Version ∧
    r.1.Balance = d.Balance ∧ r.1.NodeRefundBalance = d.NodeRefundBalance := by
  rw [addMinipoolShareCalls] at h
  by_cases hok : env.minipoolFromVersionOk d.MinipoolAddress d.Version
  · rw [if_pos hok] at h
    by_cases hz : zero ≤ d.Balance.getD 0 - d.NodeRefundBalance.getD 0
    · rw [if_pos hz] at h
      cases h
      exact ⟨rfl, rfl, rfl, rfl⟩
    · rw [if_neg hz] at h
      cases h
      exact ⟨rfl, rfl, rfl, rfl⟩
  · rw [if_neg hok] at h
    cases h

/-- Round-1 loop body: MinipoolAddress and Version of the written-back
record are the enumeration outputs for its index, whatever record was
read. -/
theorem entityStep1_addr_version (env : ChainEnv) (addrs : List Address)
    (vers : List Nat) (j : Nat) (d : NativeMinipoolDetails) :
    ((entityStep1 env addrs vers j d).1.MinipoolAddress,
      (entityStep1 env addrs vers j d).1.Version)
      = (addrs.getD j 0, vers.getD j 0) := by
  rw [entityStep1]
  rcases h : addMinipoolDetailsCalls env
      {d with MinipoolAddress := addrs.getD j 0, Version := vers.getD j 0} with e | r
  · rfl
  · obtain ⟨h1, h2, _⟩ := addMinipoolDetailsCalls_frame env _ r h
    simp only [h1, h2]

/-- Round-1 loop body preserves Balance. -/
theorem entityStep1_Balance (env : ChainEnv) (addrs : List Address)
    (vers : List Nat) (j : Nat) (d : NativeMinipoolDetails) :
    (entityStep1 env addrs vers j d).1.Balance = d.Balance := by
  rw [entityStep1]
  rcases h : addMinipoolDetailsCalls env
      {d with MinipoolAddress := addrs.getD j 0, Version := vers.getD j 0} with e | r
  · rfl
  · exact (addMinipoolDetailsCalls_frame env _ r h).2.2

/-- Round-2 loop body: Version of the written-back record is the resolved
version for its index. -/
theorem entityStep2_Version (env : ChainEnv) (vers : List Nat) (j : Nat)
    (d : NativeMinipoolDetails) :
    (entityStep2 env vers j d).1.Version = vers.getD j 0 := by
  rw [entityStep2]
  rcases h : addMinipoolShareCalls env {d with Version := vers.getD j 0} with e | r
  · rfl
  · exact (addMinipoolShareCalls_frame env _ r h).2.1

/-- Round-2 loop body preserves MinipoolAddress and Balance. -/
theorem entityStep2_addr_Balance (env : ChainEnv) (vers : List Nat) (j : Nat)
    (d : NativeMinipoolDetails) :
    (entityStep2 env vers j d).1.MinipoolAddress = d.MinipoolAddress ∧
    (entityStep2 env vers j d).1.Balance = d.Balance := by
  rw [entityStep2]
  rcases h : addMinipoolShareCalls env {d with Version := vers.getD j 0} with e | r
  · exact ⟨rfl, rfl⟩
  · obtain ⟨h1, _, h3, _⟩ := addMinipoolShareCalls_frame env _ r h
    exact ⟨h1, h3⟩

/-- The relation round 2 is meant to establish on a record. -/
def distributableOk (d : NativeMinipoolDetails) : Bool :=
  d.DistributableBalance = some (d.Balance.getD 0 - d.NodeRefundBalance.getD 0)

/-- When the minipool binding constructor always succeeds, the round-2
loop body always writes back a record satisfying distributableOk. -/
theorem entityStep2_distributableOk (env : ChainEnv) (vers : List Nat) (j : Nat)
    (d : NativeMinipoolDetails)
    (hcreate : ∀ a v, env.minipoolFromVersionOk a v = true) :
    distributableOk (entityStep2 env vers j d).1 = true := by
  rw [entityStep2, addMinipoolShareCalls]
  rw [hcreate]
  by_cases hz : zero ≤ d.Balance.getD 0 - d.NodeRefundBalance.getD 0
  · rw [if_pos hz]
    simp [distributableOk]
  · rw [if_neg hz]
    simp [distributableOk]

/-- Every call the round-2 loop body emits is one of the two share
bindings. -/
theorem entityStep2_emits_shares (env : ChainEnv) (vers : List Nat) (j : Nat)
    (d : NativeMinipoolDetails) :
    ∀ c ∈ (entityStep2 env vers j d).2,
      c.field = FieldId.fNodeShareOfBalance ∨ c.field = FieldId.fUserShareOfBalance := by
  rw [entityStep2, addMinipoolShareCalls]
  by_cases hok : env.minipoolFromVersionOk d.MinipoolAddress (vers.getD j 0)
  · rw [if_pos hok]
    by_cases hz : zero ≤ d.Balance.getD 0 - d.NodeRefundBalance.getD 0
    · rw [if_pos hz]
      intro c hc
      rcases List.mem_cons.mp hc with rfl | hc
      · exact Or.inl rfl
      · rcases List.mem_singleton.mp hc with rfl
        exact Or.inr rfl
    · rw [if_neg hz]
      intro c hc
      cases hc
  · rw [if_neg hok]
    intro c hc
    cases hc

/-! ### Lemmas about one details chunk -/

theorem detailsChunk_fst (env : ChainEnv) (blk : Nat) (step)
    (count size : Nat) (ds : List NativeMinipoolDetails) (i : Nat) :
    (detailsChunk env blk step count size ds i).1 =
      some ⟨blk, true,
        ((queueCalls step ds (chunkIdxs i count size)).2).map (fun w => w.2.desc)⟩ := rfl

theorem detailsChunk_ok_shape (env : ChainEnv) (blk : Nat) (step)
    (count size : Nat) (ds : List NativeMinipoolDetails) (i : Nat)
    (ds2 : List NativeMinipoolDetails)
    (h : (detailsChunk env blk step count size ds i).2 = .ok ds2) :
    ∃ vals,
      execStrict env blk
        (((queueCalls step ds (chunkIdxs i count size)).2).map (fun w => w.2.desc))
        = some vals ∧
      ds2 = applyWrites (queueCalls step ds (chunkIdxs i count size)).1
        ((queueCalls step ds (chunkIdxs i count size)).2.zip vals) := by
  simp only [detailsChunk] at h
  rcases hex : execStrict env blk
      (((queueCalls step ds (chunkIdxs i count size)).2).map (fun w => w.2.desc))
      with _ | vals
  · rw [hex] at h
    cases h
  · rw [hex] at h
    refine ⟨vals, hex, ?_⟩
    cases h
    rfl

theorem detailsChunk_err_shape (env : ChainEnv) (blk : Nat) (step)
    (count size : Nat) (ds : List NativeMinipoolDetails) (i : Nat)
    (hex : execStrict env blk
      (((queueCalls step ds (chunkIdxs i count size)).2).map (fun w => w.2.desc))
      = none) :
    isErrE (detailsChunk env blk step count size ds i).2 = true := by
  simp only [detailsChunk]
  rw [hex]
  rfl

theorem detailsChunk_length (env : ChainEnv) (blk : Nat) (step)
    (count size : Nat) (ds : List NativeMinipoolDetails) (i : Nat)
    (ds2 : List NativeMinipoolDetails)
    (h : (detailsChunk env blk step count size ds i).2 = .ok ds2) :
    ds2.length = ds.length := by
  obtain ⟨vals, _, rfl⟩ := detailsChunk_ok_shape env blk step count size ds i ds2 h
  rw [length_applyWrites, queueCalls_fst, length_sliceFold]

/-- A successful details chunk preserves any projection its loop body
preserves and its emitted bindings never overwrite. -/
theorem detailsChunk_pget_inv {β} (g : NativeMinipoolDetails → β)
    (env : ChainEnv) (blk : Nat) (step) (count size : Nat)
    (hstep : ∀ j d, g ((step j d).1) = g d)
    (hemit : ∀ j d, ∀ c ∈ (step j d).2, ∀ v dd, g (writeField c.field v dd) = g dd)
    (ds : List NativeMinipoolDetails) (i : Nat) (ds2 : List NativeMinipoolDetails)
    (h : (detailsChunk env blk step count size ds i).2 = .ok ds2) (j : Nat) :
    pget g ds2 j = pget g ds j := by
  obtain ⟨vals, _, rfl⟩ := detailsChunk_ok_shape env blk step count size ds i ds2 h
  rw [applyWrites_pget_inv g _ ?_ _ j]
  · rw [queueCalls_fst]
    exact sliceFold_pget_inv g step hstep _ _ _
  · intro w hw d
    obtain ⟨wa, wb⟩ := w
    have hmem := (List.of_mem_zip hw).1
    exact queueCalls_snd_forall
      (fun c => ∀ v dd, g (writeField c.field v dd) = g dd) step hemit ds
      (chunkIdxs i count size) wa hmem wb d

/-- A successful details chunk gives every in-range index of its own
range the pointwise value its loop body writes there, and leaves the
projection of every other index unchanged. -/
theorem detailsChunk_estab {β} (g : NativeMinipoolDetails → β) (c : Nat → β)
    (env : ChainEnv) (blk : Nat) (step) (count size : Nat)
    (hstep : ∀ j d, g ((step j d).1) = c j)
    (hemit : ∀ j d, ∀ c2 ∈ (step j d).2, ∀ v dd, g (writeField c2.field v dd) = g dd)
    (ds : List NativeMinipoolDetails) (i : Nat) (ds2 : List NativeMinipoolDetails)
    (h : (detailsChunk env blk step count size ds i).2 = .ok ds2) :
    (∀ j, j ∈ chunkIdxs i count size → j < ds.length → pget g ds2 j = some (c j)) ∧
    (∀ j, ¬ j ∈ chunkIdxs i count size → pget g ds2 j = pget g ds j) := by
  obtain ⟨vals, _, rfl⟩ := detailsChunk_ok_shape env blk step count size ds i ds2 h
  have hwinv : ∀ w ∈ (queueCalls step ds (chunkIdxs i count size)).2.zip vals,
      ∀ d, g (writeField w.1.2.field w.2 d) = g d := by
    intro w hw d
    obtain ⟨wa, wb⟩ := w
    have hmem := (List.of_mem_zip hw).1
    exact queueCalls_snd_forall
      (fun c2 => ∀ v dd, g (writeField c2.field v dd) = g dd) step hemit ds
      (chunkIdxs i count size) wa hmem wb d
  constructor
  · intro j hj hlen
    rw [applyWrites_pget_inv g _ hwinv _ j, queueCalls_fst]
    exact sliceFold_pget_const g c step hstep _ _ _ hj hlen
  · intro j hj
    rw [applyWrites_pget_inv g _ hwinv _ j, queueCalls_fst, pget, pget,
      sliceFold_getElem?_notmem _ _ _ _ hj]

/-! ### Lemmas about one version chunk -/

/-- The version the bulk resolver ends up with for index j: the decoded
probe output, or 1 when the probe reported a per-call failure. -/
def versionOf (env : ChainEnv) (blk : Nat) (addrs : List Address) (j : Nat) : Nat :=
  match env.callResult blk (versionDesc (addrs.getD j 0)) with
  | some v => v.toNat
  | none => 1

theorem versionChunk_fst_block (env : ChainEnv) (blk : Nat)
    (addrs : List Address) (vs : List Nat) (i : Nat) (b : ExecutedBatch)
    (h : (versionChunk env blk addrs vs i).1 = some b) : b.block = blk := by
  rw [versionChunk] at h
  by_cases hall : ((chunkIdxs i addrs.length minipoolVersionBatchSize).all
      (fun j => env.versionContractOk (addrs.getD j 0))) = true
  · rw [if_pos hall] at h
    cases h
    rfl
  · rw [if_neg hall] at h
    cases h

/-- Under an always-succeeding version-contract constructor and a healthy
transport, a version chunk succeeds and writes versionOf at its own
indices. -/
theorem versionChunk_ok (env : ChainEnv) (blk : Nat) (addrs : List Address)
    (hok : ∀ a ∈ addrs, env.versionContractOk a = true)
    (htr : ∀ cs, env.transportOk blk cs = true)
    (vs : List Nat) (i : Nat) :
    (versionChunk env blk addrs vs i).2 =
      .ok (setAll vs ((chunkIdxs i addrs.length minipoolVersionBatchSize).map
        (fun j => (j, versionOf env blk addrs j)))) := by
  have hall : ((chunkIdxs i addrs.length minipoolVersionBatchSize).all
      (fun j => env.versionContractOk (addrs.getD j 0))) = true := by
    rw [List.all_eq_true]
    intro j hj
    have hjlt : j < addrs.length := by
      rw [chunkIdxs, List.mem_range'_1] at hj
      omega
    have : addrs.getD j 0 ∈ addrs := by
      rw [List.getD_eq_getElem addrs 0 hjlt]
      exact List.getElem_mem hjlt
    exact hok _ this
  rw [versionChunk, if_pos hall]
  simp only [execLenient, htr, if_true]
  congr 1
  congr 1
  rw [List.map_map, zip_self_map, List.map_map]
  rfl

/-- Full characterization of a healthy bulk version resolution: it
succeeds and resolves every index to versionOf. -/
theorem getMinipoolVersionsFast_spec (env : ChainEnv) (blk : Nat)
    (addrs : List Address)
    (hok : ∀ a ∈ addrs, env.versionContractOk a = true)
    (htr : ∀ cs, env.transportOk blk cs = true) :
    ∃ vs, (getMinipoolVersionsFast env blk addrs).2 = .ok vs ∧
      vs.length = addrs.length ∧
      ∀ j, j < addrs.length → vs[j]? = some (versionOf env blk addrs j) := by
  have herrnone : (roundFold (versionChunk env blk addrs)
      (chunkStarts addrs.length minipoolVersionBatchSize)
      (List.replicate addrs.length 0)).2.2 = none := by
    apply roundFold_err_none
    intro s i
    rw [versionChunk_ok env blk addrs hok htr s i]
    rfl
  have hchunk : ∀ (s : List Nat) i s2, True →
      (versionChunk env blk addrs s i).2 = .ok s2 →
      True ∧ s2.length = s.length ∧
      (∀ j, j ∈ chunkIdxs i addrs.length minipoolVersionBatchSize →
        j < s.length → pget (fun v => v) s2 j = some (versionOf env blk addrs j)) ∧
      (∀ j, ¬ j ∈ chunkIdxs i addrs.length minipoolVersionBatchSize →
        pget (fun v => v) s2 j = pget (fun v => v) s j) := by
    intro s i s2 _ h2
    rw [versionChunk_ok env blk addrs hok htr s i] at h2
    injection h2 with h2
    subst h2
    refine ⟨trivial, length_setAll _ _, ?_, ?_⟩
    · intro j hj hlen
      rw [pget, setAll_map_getElem?, if_pos ⟨hj, hlen⟩]
      rfl
    · intro j hj
      rw [pget, pget, setAll_map_getElem?, if_neg (by tauto)]
  have hmain := roundFold_estab (fun v => v) (versionOf env blk addrs)
    (fun i => chunkIdxs i addrs.length minipoolVersionBatchSize) (fun _ => True)
    (versionChunk env blk addrs) hchunk
    (chunkStarts addrs.length minipoolVersionBatchSize)
    (List.replicate addrs.length 0) trivial herrnone
  refine ⟨(roundFold (versionChunk env blk addrs)
      (chunkStarts addrs.length minipoolVersionBatchSize)
      (List.replicate addrs.length 0)).2.1, ?_, ?_, ?_⟩
  · rw [getMinipoolVersionsFast, herrnone]
    rfl
  · rw [hmain.2.1, List.length_replicate]
  · intro j hj
    have hjmem : j ∈ ((chunkStarts addrs.length minipoolVersionBatchSize).map
        (fun i => chunkIdxs i addrs.length minipoolVersionBatchSize)).flatten := by
      rw [chunkIdxs_flatten addrs.length minipoolVersionBatchSize (by decide)]
      exact List.mem_range.mpr hj
    have hp := hmain.2.2 j hjmem (by rw [List.length_replicate]; exact hj)
    rw [pget] at hp
    rcases hx : (roundFold (versionChunk env blk addrs)
        (chunkStarts addrs.length minipoolVersionBatchSize)
        (List.replicate addrs.length 0)).2.1[j]? with _ | x
    · rw [hx] at hp
      cases hp
    · rw [hx] at hp
      simpa using hp

/-- C4: a version probe that reports a per-call failure resolves to
version 1 and does not make the bulk resolution fail. -/
theorem getMinipoolVersionsFast_probeMiss (env : ChainEnv) (blk : Nat)
    (addrs : List Address) (j : Nat)
    (hok : ∀ a ∈ addrs, env.versionContractOk a = true)
    (htr : ∀ cs, env.transportOk blk cs = true)
    (hj : j < addrs.length)
    (hfail : env.callResult blk (versionDesc (addrs.getD j 0)) = none) :
    ∃ vs, (getMinipoolVersionsFast env blk addrs).2 = .ok vs ∧ vs[j]? = some 1 := by
  obtain ⟨vs, hvs, _, hpt⟩ := getMinipoolVersionsFast_spec env blk addrs hok htr
  refine ⟨vs, hvs, ?_⟩
  rw [hpt j hj, versionOf, hfail]

/-! ### The two details rounds of getBulkMinipoolDetails -/

theorem entityStep1_addr (env : ChainEnv) (addrs : List Address) (vers : List Nat)
    (j : Nat) (d : NativeMinipoolDetails) :
    (entityStep1 env addrs vers j d).1.MinipoolAddress = addrs.getD j 0 :=
  congrArg Prod.fst (entityStep1_addr_version env addrs vers j d)

theorem entityStep1_version (env : ChainEnv) (addrs : List Address) (vers : List Nat)
    (j : Nat) (d : NativeMinipoolDetails) :
    (entityStep1 env addrs vers j d).1.Version = vers.getD j 0 :=
  congrArg Prod.snd (entityStep1_addr_version env addrs vers j d)

theorem bulkState0_length (env : ChainEnv) (blk : Nat) (addrs : List Address) :
    (bulkState0 env blk addrs).length = addrs.length := by
  rw [bulkState0, setBalances, queueCalls_fst, length_sliceFold, List.length_replicate]

/-- After the Balance assignment loop, every in-range slot holds the
batcher output for its own address. -/
theorem bulkState0_Balance (env : ChainEnv) (blk : Nat) (addrs : List Address)
    (j : Nat) (hj : j < addrs.length) :
    pget (fun d => d.Balance) (bulkState0 env blk addrs) j
      = some (some (env.ethBalance blk (addrs.getD j 0))) := by
  rw [bulkState0, setBalances, queueCalls_fst]
  have hc := sliceFold_pget_const (fun d => d.Balance)
    (fun j => some ((addrs.map (env.ethBalance blk)).getD j 0))
    (fun j d => ({d with Balance := some ((addrs.map (env.ethBalance blk)).getD j 0)}, []))
    (fun _ _ => rfl)
    (List.range (List.replicate (α := NativeMinipoolDetails) addrs.length {}).length)
    (List.replicate addrs.length {}) j
    (by
      rw [List.length_replicate, List.mem_range]
      exact hj)
    (by rw [List.length_replicate]; exact hj)
  rw [hc]
  show some (some ((List.map (env.ethBalance blk) addrs).getD j 0))
      = some (some (env.ethBalance blk (addrs.getD j 0)))
  rw [List.getD_eq_getElem?_getD, List.getElem?_map, List.getElem?_eq_getElem hj,
    List.getD_eq_getElem?_getD addrs j 0, List.getElem?_eq_getElem hj]
  rfl

/-- The per-chunk facts for round 1 packaged for the scheduler lemma:
MinipoolAddress established from the enumeration output. -/
theorem bulkChunk1_estab_addr (env : ChainEnv) (blk : Nat)
    (addrs : List Address) (vers : List Nat) :
    ∀ s i s2, True → ((bulkChunk1 env blk addrs vers) s i).2 = .ok s2 →
      True ∧ s2.length = s.length ∧
      (∀ j, j ∈ chunkIdxs i addrs.length minipoolBatchSize → j < s.length →
        pget (fun d => d.MinipoolAddress) s2 j = some (addrs.getD j 0)) ∧
      (∀ j, ¬ j ∈ chunkIdxs i addrs.length minipoolBatchSize →
        pget (fun d => d.MinipoolAddress) s2 j
          = pget (fun d => d.MinipoolAddress) s j) := by
  intro s i s2 _ h2
  have hemit : ∀ j d, ∀ c2 ∈ (entityStep1 env addrs vers j d).2, ∀ v dd,
      (writeField c2.field v dd).MinipoolAddress = dd.MinipoolAddress :=
    fun j d c2 _ v dd => (writeField_core_frame c2.field v dd).1
  have he := detailsChunk_estab (fun d => d.MinipoolAddress) (fun j => addrs.getD j 0)
    env blk (entityStep1 env addrs vers) addrs.length minipoolBatchSize
    (entityStep1_addr env addrs vers) hemit s i s2 h2
  exact ⟨trivial,
    detailsChunk_length env blk _ addrs.length minipoolBatchSize s i s2 h2,
    he.1, he.2⟩

/-- Round-1 chunk facts: Version established from the resolver output. -/
theorem bulkChunk1_estab_version (env : ChainEnv) (blk : Nat)
    (addrs : List Address) (vers : List Nat) :
    ∀ s i s2, True → ((bulkChunk1 env blk addrs vers) s i).2 = .ok s2 →
      True ∧ s2.length = s.length ∧
      (∀ j, j ∈ chunkIdxs i addrs.length minipoolBatchSize → j < s.length →
        pget (fun d => d.Version) s2 j = some (vers.getD j 0)) ∧
      (∀ j, ¬ j ∈ chunkIdxs i addrs.length minipoolBatchSize →
        pget (fun d => d.Version) s2 j = pget (fun d => d.Version) s j) := by
  intro s i s2 _ h2
  have hemit : ∀ j d, ∀ c2 ∈ (entityStep1 env addrs vers j d).2, ∀ v dd,
      (writeField c2.field v dd).Version = dd.Version :=
    fun j d c2 _ v dd => (writeField_core_frame c2.field v dd).2.1
  have he := detailsChunk_estab (fun d => d.Version) (fun j => vers.getD j 0)
    env blk (entityStep1 env addrs vers) addrs.length minipoolBatchSize
    (entityStep1_version env addrs vers) hemit s i s2 h2
  exact ⟨trivial,
    detailsChunk_length env blk _ addrs.length minipoolBatchSize s i s2 h2,
    he.1, he.2⟩

/-- Round 1 never touches the Balance slot of any record. -/
theorem bulkChunk1_Balance_inv (env : ChainEnv) (blk : Nat)
    (addrs : List Address) (vers : List Nat) :
    ∀ s i s2, ((bulkChunk1 env blk addrs vers) s i).2 = .ok s2 →
      ∀ j, pget (fun d => d.Balance) s2 j = pget (fun d => d.Balance) s j := by
  intro s i s2 h2 j
  exact detailsChunk_pget_inv (fun d => d.Balance) env blk
    (entityStep1 env addrs vers) addrs.length minipoolBatchSize
    (entityStep1_Balance env addrs vers)
    (fun j2 d c2 _ v dd => writeField_Balance c2.field v dd)
    s i s2 h2 j

/-- Round-2 chunk facts: Version re-established from the resolver output. -/
theorem bulkChunk2_estab_version (env : ChainEnv) (blk : Nat)
    (vers : List Nat) (count : Nat) :
    ∀ s i s2, True → ((bulkChunk2 env blk vers count) s i).2 = .ok s2 →
      True ∧ s2.length = s.length ∧
      (∀ j, j ∈ chunkIdxs i count minipoolBatchSize → j < s.length →
        pget (fun d => d.Version) s2 j = some (vers.getD j 0)) ∧
      (∀ j, ¬ j ∈ chunkIdxs i count minipoolBatchSize →
        pget (fun d => d.Version) s2 j = pget (fun d => d.Version) s j) := by
  intro s i s2 _ h2
  have hemit : ∀ j d, ∀ c2 ∈ (entityStep2 env vers j d).2, ∀ v dd,
      (writeField c2.field v dd).Version = dd.Version :=
    fun j d c2 _ v dd => (writeField_core_frame c2.field v dd).2.1
  have he := detailsChunk_estab (fun d => d.Version) (fun j => vers.getD j 0)
    env blk (entityStep2 env vers) count minipoolBatchSize
    (entityStep2_Version env vers) hemit s i s2 h2
  exact ⟨trivial,
    detailsChunk_length env blk _ count minipoolBatchSize s i s2 h2,
    he.1, he.2⟩

/-- Round-2 chunk facts: when the minipool binding constructor always
succeeds, the distributable-balance relation is established everywhere. -/
theorem bulkChunk2_estab_distributable (env : ChainEnv) (blk : Nat)
    (vers : List Nat) (count : Nat)
    (hcreate : ∀ a v, env.minipoolFromVersionOk a v = true) :
    ∀ s i s2, True → ((bulkChunk2 env blk vers count) s i).2 = .ok s2 →
      True ∧ s2.length = s.length ∧
      (∀ j, j ∈ chunkIdxs i count minipoolBatchSize → j < s.length →
        pget distributableOk s2 j = some true) ∧
      (∀ j, ¬ j ∈ chunkIdxs i count minipoolBatchSize →
        pget distributableOk s2 j = pget distributableOk s j) := by
  intro s i s2 _ h2
  have hemit : ∀ j d, ∀ c2 ∈ (entityStep2 env vers j d).2, ∀ v dd,
      distributableOk (writeField c2.field v dd) = distributableOk dd := by
    intro j d c2 hc2 v dd
    rcases entityStep2_emits_shares env vers j d c2 hc2 with hf | hf
    all_goals
      rw [distributableOk, distributableOk,
        (writeField_core_frame c2.field v dd).2.2.1,
        (writeField_core_frame c2.field v dd).2.2.2,
        writeField_share_refund_frame c2.field v dd (by rw [hf]; tauto)]
  have he := detailsChunk_estab distributableOk (fun _ => true)
    env blk (entityStep2 env vers) count minipoolBatchSize
    (fun j d => entityStep2_distributableOk env vers j d hcreate) hemit s i s2 h2
  exact ⟨trivial,
    detailsChunk_length env blk _ count minipoolBatchSize s i s2 h2,
    he.1, he.2⟩

/-- Round 2 leaves MinipoolAddress untouched. -/
theorem bulkChunk2_addr_inv (env : ChainEnv) (blk : Nat)
    (vers : List Nat) (count : Nat) :
    ∀ s i s2, ((bulkChunk2 env blk vers count) s i).2 = .ok s2 →
      ∀ j, pget (fun d => d.MinipoolAddress) s2 j
        = pget (fun d => d.MinipoolAddress) s j := by
  intro s i s2 h2 j
  exact detailsChunk_pget_inv (fun d => d.MinipoolAddress) env blk
    (entityStep2 env vers) count minipoolBatchSize
    (fun j2 d => (entityStep2_addr_Balance env vers j2 d).1)
    (fun j2 d c2 _ v dd => (writeField_core_frame c2.field v dd).1)
    s i s2 h2 j

/-- Round 2 leaves Balance untouched. -/
theorem bulkChunk2_Balance_inv (env : ChainEnv) (blk : Nat)
    (vers : List Nat) (count : Nat) :
    ∀ s i s2, ((bulkChunk2 env blk vers count) s i).2 = .ok s2 →
      ∀ j, pget (fun d => d.Balance) s2 j = pget (fun d => d.Balance) s j := by
  intro s i s2 h2 j
  exact detailsChunk_pget_inv (fun d => d.Balance) env blk
    (entityStep2 env vers) count minipoolBatchSize
    (fun j2 d => (entityStep2_addr_Balance env vers j2 d).2)
    (fun j2 d c2 _ v dd => writeField_Balance c2.field v dd)
    s i s2 h2 j

/-- Success-path decomposition of getBulkMinipoolDetails: the batcher
succeeded, both rounds finished without error and the result is the
fixed-up round-2 slice. -/
theorem getBulk_ok_shape (env : ChainEnv) (blk : Nat) (addrs : List Address)
    (vers : List Nat) (ds : List NativeMinipoolDetails)
    (h : (getBulkMinipoolDetails env blk addrs vers).2 = .ok ds) :
    env.balanceBatcherOk = true ∧
    (bulkZ1 env blk addrs vers).2.2 = none ∧
    (bulkZ2 env blk addrs vers).2.2 = none ∧
    ds = (bulkZ2 env blk addrs vers).2.1.map fixupMinipoolDetails := by
  by_cases hbb : env.balanceBatcherOk
  · simp only [getBulkMinipoolDetails, hbb, if_true] at h
    rcases hz1 : (bulkZ1 env blk addrs vers).2.2 with _ | e
    · rw [hz1] at h
      rcases hz2 : (bulkZ2 env blk addrs vers).2.2 with _ | e
      · rw [hz2] at h
        simp only [] at h
        refine ⟨hbb, rfl, rfl, ?_⟩
        injection h with h
        exact h.symm
      · rw [hz2] at h
        simp only [] at h
        cases h
    · rw [hz1] at h
      simp only [] at h
      cases h
  · simp only [getBulkMinipoolDetails, hbb, if_false] at h
    cases h

/-- C3: a successful bulk fetch returns one record per enumerated
address, in enumeration order: record j carries address j and version j. -/
theorem getBulkMinipoolDetails_indexAligned (env : ChainEnv) (blk : Nat)
    (addrs : List Address) (vers : List Nat)
    (h : isOkE (getBulkMinipoolDetails env blk addrs vers).2 = true) :
    ∃ ds, (getBulkMinipoolDetails env blk addrs vers).2 = .ok ds ∧
      ds.length = addrs.length ∧
      ∀ j, j < addrs.length →
        (ds.getD j {}).MinipoolAddress = addrs.getD j 0 ∧
        (ds.getD j {}).Version = vers.getD j 0 := by
  rcases hres : (getBulkMinipoolDetails env blk addrs vers).2 with e | ds
  · rw [hres] at h
    simp [isOkE] at h
  · obtain ⟨hbb, hz1, hz2, hds⟩ := getBulk_ok_shape env blk addrs vers ds hres
    have hlen1 : (bulkZ1 env blk addrs vers).2.1.length = addrs.length := by
      have h0 := roundFold_length (bulkChunk1 env blk addrs vers)
        (fun s i s2 h2 => detailsChunk_length env blk (entityStep1 env addrs vers)
          addrs.length minipoolBatchSize s i s2 h2)
        (chunkStarts addrs.length minipoolBatchSize) (bulkState0 env blk addrs)
      rw [bulkZ1, h0, bulkState0_length]
    have hlen2 : (bulkZ2 env blk addrs vers).2.1.length = addrs.length := by
      have h0 := roundFold_length (bulkChunk2 env blk vers addrs.length)
        (fun s i s2 h2 => detailsChunk_length env blk (entityStep2 env vers)
          addrs.length minipoolBatchSize s i s2 h2)
        (chunkStarts addrs.length minipoolBatchSize) (bulkZ1 env blk addrs vers).2.1
      rw [bulkZ2, h0, hlen1]
    refine ⟨ds, rfl, ?_, ?_⟩
    · rw [hds, List.length_map, hlen2]
    · intro j hj
      have hjmem : j ∈ ((chunkStarts addrs.length minipoolBatchSize).map
          (fun i => chunkIdxs i addrs.length minipoolBatchSize)).flatten := by
        rw [chunkIdxs_flatten addrs.length minipoolBatchSize (by decide)]
        exact List.mem_range.mpr hj
      -- round 1 establishes address and version
      have hr1a := (roundFold_estab (fun d => d.MinipoolAddress)
        (fun j => addrs.getD j 0)
        (fun i => chunkIdxs i addrs.length minipoolBatchSize) (fun _ => True)
        (bulkChunk1 env blk addrs vers) (bulkChunk1_estab_addr env blk addrs vers)
        (chunkStarts addrs.length minipoolBatchSize) (bulkState0 env blk addrs)
        trivial hz1).2.2 j hjmem (by rw [bulkState0_length]; exact hj)
      have hr1v := (roundFold_estab (fun d => d.Version)
        (fun j => vers.getD j 0)
        (fun i => chunkIdxs i addrs.length minipoolBatchSize) (fun _ => True)
        (bulkChunk1 env blk addrs vers) (bulkChunk1_estab_version env blk addrs vers)
        (chunkStarts addrs.length minipoolBatchSize) (bulkState0 env blk addrs)
        trivial hz1).2.2 j hjmem (by rw [bulkState0_length]; exact hj)
      -- round 2 re-establishes the version and leaves the address alone
      have hr2v := (roundFold_estab (fun d => d.Version)
        (fun j => vers.getD j 0)
        (fun i => chunkIdxs i addrs.length minipoolBatchSize) (fun _ => True)
        (bulkChunk2 env blk vers addrs.length)
        (bulkChunk2_estab_version env blk vers addrs.length)
        (chunkStarts addrs.length minipoolBatchSize)
        (bulkZ1 env blk addrs vers).2.1
        trivial hz2).2.2 j hjmem (by rw [hlen1]; exact hj)
      have hr2a := roundFold_pget_inv (fun d => d.MinipoolAddress)
        (bulkChunk2 env blk vers addrs.length)
        (bulkChunk2_addr_inv env blk vers addrs.length)
        (chunkStarts addrs.length minipoolBatchSize)
        (bulkZ1 env blk addrs vers).2.1 j
      have haddr2 : pget (fun d => d.MinipoolAddress)
          (bulkZ2 env blk addrs vers).2.1 j = some (addrs.getD j 0) := by
        rw [bulkZ2, hr2a, bulkZ1]
        exact hr1a
      have hver2 : pget (fun d => d.Version)
          (bulkZ2 env blk addrs vers).2.1 j = some (vers.getD j 0) := by
        rw [bulkZ2]
        exact hr2v
      -- the fixup pass changes neither field
      have hfa : pget (fun d => (fixupMinipoolDetails d).MinipoolAddress)
          (bulkZ2 env blk addrs vers).2.1 j = some (addrs.getD j 0) := haddr2
      have hfv : pget (fun d => (fixupMinipoolDetails d).Version)
          (bulkZ2 env blk addrs vers).2.1 j = some (vers.getD j 0) := hver2
      rw [hds]
      constructor
      · refine pget_getD _ _ _ _ _ ?_
        rw [pget, List.getElem?_map, Option.map_map]
        rw [pget] at hfa
        exact hfa
      · refine pget_getD _ _ _ _ _ ?_
        rw [pget, List.getElem?_map, Option.map_map]
        rw [pget] at hfv
        exact hfv

/-- C8: after a successful bulk fetch with an always-healthy minipool
binding constructor, every record carries the raw batcher balance for its
address and DistributableBalance is exactly the unbounded big-integer
difference Balance - NodeRefundBalance of that same record. -/
theorem getBulkMinipoolDetails_distributable (env : ChainEnv) (blk : Nat)
    (addrs : List Address) (vers : List Nat)
    (hcreate : ∀ a v, env.minipoolFromVersionOk a v = true)
    (h : isOkE (getBulkMinipoolDetails env blk addrs vers).2 = true) :
    ∃ ds, (getBulkMinipoolDetails env blk addrs vers).2 = .ok ds ∧
      ∀ j, j < addrs.length →
        (ds.getD j {}).Balance = some (env.ethBalance blk (addrs.getD j 0)) ∧
        (ds.getD j {}).DistributableBalance =
          some ((ds.getD j {}).Balance.getD 0
            - (ds.getD j {}).NodeRefundBalance.getD 0) := by
  rcases hres : (getBulkMinipoolDetails env blk addrs vers).2 with e | ds
  · rw [hres] at h
    simp [isOkE] at h
  · obtain ⟨hbb, hz1, hz2, hds⟩ := getBulk_ok_shape env blk addrs vers ds hres
    have hlen1 : (bulkZ1 env blk addrs vers).2.1.length = addrs.length := by
      have h0 := roundFold_length (bulkChunk1 env blk addrs vers)
        (fun s i s2 h2 => detailsChunk_length env blk (entityStep1 env addrs vers)
          addrs.length minipoolBatchSize s i s2 h2)
        (chunkStarts addrs.length minipoolBatchSize) (bulkState0 env blk addrs)
      rw [bulkZ1, h0, bulkState0_length]
    refine ⟨ds, rfl, ?_⟩
    intro j hj
    have hjmem : j ∈ ((chunkStarts addrs.length minipoolBatchSize).map
        (fun i => chunkIdxs i addrs.length minipoolBatchSize)).flatten := by
      rw [chunkIdxs_flatten addrs.length minipoolBatchSize (by decide)]
      exact List.mem_range.mpr hj
    -- Balance survives both rounds untouched
    have hb1 := roundFold_pget_inv (fun d => d.Balance)
      (bulkChunk1 env blk addrs vers)
      (bulkChunk1_Balance_inv env blk addrs vers)
      (chunkStarts addrs.length minipoolBatchSize) (bulkState0 env blk addrs) j
    have hb2 := roundFold_pget_inv (fun d => d.Balance)
      (bulkChunk2 env blk vers addrs.length)
      (bulkChunk2_Balance_inv env blk vers addrs.length)
      (chunkStarts addrs.length minipoolBatchSize)
      (bulkZ1 env blk addrs vers).2.1 j
    have hbal2 : pget (fun d => d.Balance) (bulkZ2 env blk addrs vers).2.1 j
        = some (some (env.ethBalance blk (addrs.getD j 0))) := by
      rw [bulkZ2, hb2, bulkZ1, hb1]
      exact bulkState0_Balance env blk addrs j hj
    -- round 2 establishes the distributable relation
    have hrel := (roundFold_estab distributableOk (fun _ => true)
      (fun i => chunkIdxs i addrs.length minipoolBatchSize) (fun _ => True)
      (bulkChunk2 env blk vers addrs.length)
      (bulkChunk2_estab_distributable env blk vers addrs.length hcreate)
      (chunkStarts addrs.length minipoolBatchSize)
      (bulkZ1 env blk addrs vers).2.1
      trivial hz2).2.2 j hjmem (by rw [hlen1]; exact hj)
    have hrel2 : pget distributableOk (bulkZ2 env blk addrs vers).2.1 j
        = some true := by
      rw [bulkZ2]
      exact hrel
    -- the fixup pass preserves both facts
    have hfb : pget (fun d => (fixupMinipoolDetails d).Balance)
        (bulkZ2 env blk addrs vers).2.1 j
        = some (some (env.ethBalance blk (addrs.getD j 0))) := hbal2
    have hfr : pget (fun d => distributableOk (fixupMinipoolDetails d))
        (bulkZ2 env blk addrs vers).2.1 j = some true := hrel2
    constructor
    · rw [hds]
      refine pget_getD _ _ _ _ _ ?_
      rw [pget, List.getElem?_map, Option.map_map]
      rw [pget] at hfb
      exact hfb
    · have hok2 : distributableOk (ds.getD j {}) = true := by
        rw [hds]
        refine pget_getD _ _ _ _ _ ?_
        rw [pget, List.getElem?_map, Option.map_map]
        rw [pget] at hfr
        exact hfr
      exact of_decide_eq_true hok2

/-! ### Failure propagation of a round-1 chunk -/

/-- The descriptors the round-1 loop body queues for index j.  They are a
function of the index alone (address, version and constructor health),
never of the record contents. -/
def round1CallsFor (env : ChainEnv) (addrs : List Address) (vers : List Nat)
    (j : Nat) : List CallDesc :=
  ((entityStep1 env addrs vers j {}).2).map BoundCall.desc

theorem entityStep1_descs (env : ChainEnv) (addrs : List Address)
    (vers : List Nat) (j : Nat) (d : NativeMinipoolDetails) :
    ((entityStep1 env addrs vers j d).2).map BoundCall.desc
      = round1CallsFor env addrs vers j := by
  rw [round1CallsFor]
  simp only [entityStep1, addMinipoolDetailsCalls]
  split_ifs <;> rfl

/-- The full descriptor list of the round-1 chunk starting at i. -/
def round1ChunkCalls (env : ChainEnv) (addrs : List Address) (vers : List Nat)
    (i : Nat) : List CallDesc :=
  ((chunkIdxs i addrs.length minipoolBatchSize).map
    (round1CallsFor env addrs vers)).flatten

theorem bulkChunk1_calls (env : ChainEnv) (addrs : List Address)
    (vers : List Nat) (ds : List NativeMinipoolDetails) (i : Nat) :
    ((queueCalls (entityStep1 env addrs vers) ds
      (chunkIdxs i addrs.length minipoolBatchSize)).2).map (fun w => w.2.desc)
      = round1ChunkCalls env addrs vers i :=
  queueCalls_snd_descs (round1CallsFor env addrs vers) (entityStep1 env addrs vers)
    (fun j d => entityStep1_descs env addrs vers j d) ds
    (chunkIdxs i addrs.length minipoolBatchSize)

/-- Whatever state the scheduler hands it, the round-1 chunk at start i
fails whenever its strict round trip fails: its descriptor list does not
depend on the state. -/
theorem bulkChunk1_fails (env : ChainEnv) (blk : Nat) (addrs : List Address)
    (vers : List Nat) (i : Nat)
    (hex : execStrict env blk (round1ChunkCalls env addrs vers i) = none) :
    ∀ ds, isErrE ((bulkChunk1 env blk addrs vers ds i).2) = true := by
  intro ds
  show isErrE ((detailsChunk env blk (entityStep1 env addrs vers)
    addrs.length minipoolBatchSize ds i).2) = true
  refine detailsChunk_err_shape env blk (entityStep1 env addrs vers)
    addrs.length minipoolBatchSize ds i ?_
  rw [bulkChunk1_calls]
  exact hex

/-- C2: if the strict round trip of any round-1 chunk fails, the bulk
fetch returns an error (never a partial slice), and so does
GetAllNativeMinipoolDetails when its enumeration and version resolution
produced these inputs. -/
theorem getBulkMinipoolDetails_allOrNothing (env : ChainEnv)
    (addrs : List Address) (vers : List Nat) (i0 : Nat)
    (hmem : i0 ∈ chunkStarts addrs.length minipoolBatchSize)
    (hex : execStrict env env.elBlockNumber
      (round1ChunkCalls env addrs vers i0) = none) :
    isErrE (getBulkMinipoolDetails env env.elBlockNumber addrs vers).2 = true ∧
    ((getAllMinipoolAddressesFast env env.elBlockNumber).2 = .ok addrs →
      (getMinipoolVersionsFast env env.elBlockNumber addrs).2 = .ok vers →
      isErrE (GetAllNativeMinipoolDetails env).2 = true) := by
  have hbulk : isErrE (getBulkMinipoolDetails env env.elBlockNumber addrs vers).2
      = true := by
    by_cases hbb : env.balanceBatcherOk
    · have hz1 : ((bulkZ1 env env.elBlockNumber addrs vers).2.2).isSome = true := by
        rw [bulkZ1]
        exact roundFold_err_of_chunkFail (bulkChunk1 env env.elBlockNumber addrs vers)
          (chunkStarts addrs.length minipoolBatchSize)
          (bulkState0 env env.elBlockNumber addrs) i0 hmem
          (bulkChunk1_fails env env.elBlockNumber addrs vers i0 hex)
      rcases he : (bulkZ1 env env.elBlockNumber addrs vers).2.2 with _ | e
      · rw [he] at hz1
        cases hz1
      · simp only [getBulkMinipoolDetails, hbb, if_true, he]
        rfl
    · simp only [getBulkMinipoolDetails, hbb, if_false]
      rfl
  refine ⟨hbulk, ?_⟩
  intro haddr hver
  simp only [GetAllNativeMinipoolDetails, haddr, hver]
  exact hbulk

/-! ### The derived-value policy of addMinipoolShareCalls (C1) -/

/-- C1 amended: the skip applies to a strictly negative distributable
balance only.  DistributableBalance is always assigned the difference;
when it is negative both shares are zeroed and nothing is queued; when it
compares greater than or equal to zero (zero included) the two share
calls are queued and the share slots are left for the batch to fill. -/
theorem addMinipoolShareCalls_spec (env : ChainEnv) (d : NativeMinipoolDetails)
    (hok : env.minipoolFromVersionOk d.MinipoolAddress d.Version = true) :
    ∃ p, addMinipoolShareCalls env d = .ok p ∧
      p.1.DistributableBalance
        = some (d.Balance.getD 0 - d.NodeRefundBalance.getD 0) ∧
      (d.Balance.getD 0 - d.NodeRefundBalance.getD 0 < 0 →
        p.1.NodeShareOfBalance = some 0 ∧ p.1.UserShareOfBalance = some 0 ∧
        p.2 = []) ∧
      (0 ≤ d.Balance.getD 0 - d.NodeRefundBalance.getD 0 →
        p.1.NodeShareOfBalance = d.NodeShareOfBalance ∧
        p.1.UserShareOfBalance = d.UserShareOfBalance ∧
        p.2.map (fun bc => (bc.desc.method, bc.field)) =
          [("calculateNodeShare", FieldId.fNodeShareOfBalance),
           ("calculateUserShare", FieldId.fUserShareOfBalance)]) := by
  rw [addMinipoolShareCalls, if_pos hok]
  by_cases hz : zero ≤ d.Balance.getD 0 - d.NodeRefundBalance.getD 0
  · rw [if_pos hz]
    refine ⟨_, rfl, rfl, ?_, ?_⟩
    · intro hneg
      exfalso
      rw [zero] at hz
      omega
    · intro _
      exact ⟨rfl, rfl, rfl⟩
  · rw [if_neg hz]
    refine ⟨_, rfl, rfl, ?_, ?_⟩
    · intro _
      exact ⟨rfl, rfl, rfl⟩
    · intro hpos
      exfalso
      rw [zero] at hz
      omega

/-- The minipool record sitting exactly at the claimed boundary:
contract balance equal to the node refund, so the distributable input
is exactly zero. -/
def boundaryDetails : NativeMinipoolDetails :=
  {MinipoolAddress := 1, Version := 3, Balance := some 5, NodeRefundBalance := some 5}

/-- An environment whose client-side constructors always succeed. -/
def plainEnv : ChainEnv where
  elBlockNumber := 0
  callResult := fun _ _ => some (.vInt 0)
  ethBalance := fun _ _ => 0
  balanceBatcherOk := true
  transportOk := fun _ _ => true
  versionContractOk := fun _ => true
  minipoolFromVersionOk := fun _ _ => true

/-- C1 counterexample: at a distributable input of exactly zero (which
the claim covers with its non-strict comparison) the code queues both
share calls and does not set either share to zero. -/
theorem addMinipoolShareCalls_zero_counterexample :
    (addMinipoolShareCalls plainEnv boundaryDetails).toOption.map
      (fun p => (p.1.DistributableBalance, p.1.NodeShareOfBalance,
        p.1.UserShareOfBalance, p.2.length))
      = some (some 0, none, none, 2) := by decide

/-! ### Version-gated fields (C5) -/

/-- The nine Atlas (v3+) output slots. -/
def atlasFieldIds : List FieldId :=
  [.fUserDistributed, .fLastBondReductionTime, .fLastBondReductionPrevValue,
   .fLastBondReductionPrevNodeFee, .fIsVacant, .fReduceBondTime,
   .fReduceBondCancelled, .fReduceBondValue, .fPreMigrationBalance]

/-- C5: for a minipool below version 3 the field populator assigns every
Atlas field its explicit default (false or zero) and queues no call bound
to any Atlas field. -/
theorem addMinipoolDetailsCalls_versionGated (env : ChainEnv)
    (d : NativeMinipoolDetails)
    (hok : env.minipoolFromVersionOk d.MinipoolAddress d.Version = true)
    (hv : d.Version < 3) :
    ∃ p, addMinipoolDetailsCalls env d = .ok p ∧
      p.1.UserDistributed = false ∧
      p.1.LastBondReductionTime = some 0 ∧
      p.1.LastBondReductionPrevValue = some 0 ∧
      p.1.LastBondReductionPrevNodeFee = some 0 ∧
      p.1.IsVacant = false ∧
      p.1.ReduceBondTime = some 0 ∧
      p.1.ReduceBondCancelled = false ∧
      p.1.ReduceBondValue = some 0 ∧
      p.1.PreMigrationBalance = some 0 ∧
      ∀ bc ∈ p.2, ¬ bc.field ∈ atlasFieldIds := by
  rw [addMinipoolDetailsCalls, if_pos hok, if_pos hv]
  refine ⟨_, rfl, rfl, rfl, rfl, rfl, rfl, rfl, rfl, rfl, rfl, ?_⟩
  intro bc hbc
  rcases List.mem_append.mp hbc with h | h
  · fin_cases h <;> simp [atlasFieldIds]
  · fin_cases h <;> simp [atlasFieldIds]

/-! ### The fixup pass (C9) -/

/-- C9: fixupMinipoolDetails is a pure record transform (it takes and
returns a record value: no batch is built and no call is executed): it
coerces StatusRaw and DepositTypeRaw into their enumerations and leaves
all 42 other fields exactly as they were. -/
theorem fixupMinipoolDetails_pure (d : NativeMinipoolDetails) :
    (fixupMinipoolDetails d).Status = (d.StatusRaw : MinipoolStatus) ∧
    (fixupMinipoolDetails d).DepositType = (d.DepositTypeRaw : MinipoolDeposit) ∧
    (fixupMinipoolDetails d).Exists = d.Exists ∧
    (fixupMinipoolDetails d).MinipoolAddress = d.MinipoolAddress ∧
    (fixupMinipoolDetails d).Pubkey = d.Pubkey ∧
    (fixupMinipoolDetails d).StatusRaw = d.StatusRaw ∧
    (fixupMinipoolDetails d).StatusBlock = d.StatusBlock ∧
    (fixupMinipoolDetails d).StatusTime = d.StatusTime ∧
    (fixupMinipoolDetails d).Finalised = d.Finalised ∧
    (fixupMinipoolDetails d).DepositTypeRaw = d.DepositTypeRaw ∧
    (fixupMinipoolDetails d).NodeFee = d.NodeFee ∧
    (fixupMinipoolDetails d).NodeDepositBalance = d.NodeDepositBalance ∧
    (fixupMinipoolDetails d).NodeDepositAssigned = d.NodeDepositAssigned ∧
    (fixupMinipoolDetails d).UserDepositBalance = d.UserDepositBalance ∧
    (fixupMinipoolDetails d).UserDepositAssigned = d.UserDepositAssigned ∧
    (fixupMinipoolDetails d).UserDepositAssignedTime = d.UserDepositAssignedTime ∧
    (fixupMinipoolDetails d).UseLatestDelegate = d.UseLatestDelegate ∧
    (fixupMinipoolDetails d).Delegate = d.Delegate ∧
    (fixupMinipoolDetails d).PreviousDelegate = d.PreviousDelegate ∧
    (fixupMinipoolDetails d).EffectiveDelegate = d.EffectiveDelegate ∧
    (fixupMinipoolDetails d).PenaltyCount = d.PenaltyCount ∧
    (fixupMinipoolDetails d).PenaltyRate = d.PenaltyRate ∧
    (fixupMinipoolDetails d).NodeAddress = d.NodeAddress ∧
    (fixupMinipoolDetails d).Version = d.Version ∧
    (fixupMinipoolDetails d).Balance = d.Balance ∧
    (fixupMinipoolDetails d).DistributableBalance = d.DistributableBalance ∧
    (fixupMinipoolDetails d).NodeShareOfBalance = d.NodeShareOfBalance ∧
    (fixupMinipoolDetails d).UserShareOfBalance = d.UserShareOfBalance ∧
    (fixupMinipoolDetails d).NodeRefundBalance = d.NodeRefundBalance ∧
    (fixupMinipoolDetails d).WithdrawalCredentials = d.WithdrawalCredentials ∧
    (fixupMinipoolDetails d).NodeShareOfBalanceIncludingBeacon
      = d.NodeShareOfBalanceIncludingBeacon ∧
    (fixupMinipoolDetails d).UserShareOfBalanceIncludingBeacon
      = d.UserShareOfBalanceIncludingBeacon ∧
    (fixupMinipoolDetails d).NodeShareOfBeaconBalance = d.NodeShareOfBeaconBalance ∧
    (fixupMinipoolDetails d).UserShareOfBeaconBalance = d.UserShareOfBeaconBalance ∧
    (fixupMinipoolDetails d).UserDistributed = d.UserDistributed ∧
    (fixupMinipoolDetails d).Slashed = d.Slashed ∧
    (fixupMinipoolDetails d).IsVacant = d.IsVacant ∧
    (fixupMinipoolDetails d).LastBondReductionTime = d.LastBondReductionTime ∧
    (fixupMinipoolDetails d).LastBondReductionPrevValue
      = d.LastBondReductionPrevValue ∧
    (fixupMinipoolDetails d).LastBondReductionPrevNodeFee
      = d.LastBondReductionPrevNodeFee ∧
    (fixupMinipoolDetails d).ReduceBondTime = d.ReduceBondTime ∧
    (fixupMinipoolDetails d).ReduceBondCancelled = d.ReduceBondCancelled ∧
    (fixupMinipoolDetails d).ReduceBondValue = d.ReduceBondValue ∧
    (fixupMinipoolDetails d).PreMigrationBalance = d.PreMigrationBalance :=
  ⟨rfl, rfl, rfl, rfl, rfl, rfl, rfl, rfl, rfl, rfl, rfl, rfl, rfl, rfl, rfl,
   rfl, rfl, rfl, rfl, rfl, rfl, rfl, rfl, rfl, rfl, rfl, rfl, rfl, rfl, rfl,
   rfl, rfl, rfl, rfl, rfl, rfl, rfl, rfl, rfl, rfl, rfl, rfl, rfl, rfl⟩

/-! ### Strict version probe of the single-entity path (C10) -/

/-- C10: the single-entity entry point probes the version through the
strict rp.Query; a per-call probe failure is an error (the Go function
returns the empty record with that error, modeled by the error case),
while the bulk resolver on the same failing input succeeds with the
legacy version 1. -/
theorem GetNativeMinipoolDetails_probeStrict (env : ChainEnv) (a : Address)
    (htr : ∀ cs, env.transportOk env.elBlockNumber cs = true)
    (hok : env.versionContractOk a = true)
    (hfail : env.callResult env.elBlockNumber (versionDesc a) = none) :
    isErrE (GetNativeMinipoolDetails env a).2 = true ∧
    (getMinipoolVersionsFast env env.elBlockNumber [a]).2 = .ok [1] := by
  constructor
  · have hex : execStrict env env.elBlockNumber [versionDesc a] = none := by
      simp [execStrict, htr, List.mapM, List.mapM.loop, hfail]
    simp only [GetNativeMinipoolDetails, hex]
    rfl
  · obtain ⟨vs, hvs, hlen, hpt⟩ := getMinipoolVersionsFast_spec env
      env.elBlockNumber [a]
      (by
        intro x hx
        rcases List.mem_singleton.mp hx with rfl
        exact hok)
      htr
    have h0 := hpt 0 (by simp)
    have hv0 : versionOf env env.elBlockNumber [a] 0 = 1 := by
      rw [versionOf]
      have : ([a] : List Address).getD 0 0 = a := rfl
      rw [this, hfail]
    rw [hv0] at h0
    rcases vs with _ | ⟨x, t⟩
    · simp at hlen
    · rcases t with _ | ⟨y, t2⟩
      · simp at h0
        rw [hvs, h0]
      · simp at hlen

/-! ### Deterministic chunk assignment (C6) -/

set_option maxRecDepth 4000

/-- C6 amended: chunk assignment is deterministic — chunk k of a loop
over N items with step size s starts at k*s and covers exactly
[k*s, min ((k+1)*s) N), and the chunks tile [0, N) — and for a collection
of 250 minipools phase 1 (batch size 100) issues exactly 3 round trips,
while the address enumeration, whose batch size is the constant 1000,
runs exactly one chunk covering [0, 250). -/
theorem chunk_partition_spec :
    (∀ count size, 0 < size →
      ((chunkStarts count size).map (fun i => chunkIdxs i count size)).flatten
        = List.range count) ∧
    (∀ count size k, k < numChunks count size →
      (chunkStarts count size)[k]? = some (k * size) ∧
      chunkIdxs (k * size) count size
        = List.range' (k * size) (min ((k + 1) * size) count - k * size)) ∧
    chunkStarts 250 minipoolBatchSize = [0, 100, 200] ∧
    (∀ (env : ChainEnv) (blk : Nat) (addrs : List Address) (vers : List Nat)
      (ds0 : List NativeMinipoolDetails), addrs.length = 250 →
      (roundFold (bulkChunk1 env blk addrs vers)
        (chunkStarts addrs.length minipoolBatchSize) ds0).1.length = 3) ∧
    chunkStarts 250 minipoolAddressBatchSize = [0] ∧
    chunkIdxs 0 250 minipoolAddressBatchSize = List.range' 0 250 := by
  refine ⟨chunkIdxs_flatten, ?_, by decide, ?_, by decide, by decide⟩
  · intro count size k hk
    constructor
    · rw [chunkStarts, List.getElem?_map, List.getElem?_range hk]
      rfl
    · rw [chunkIdxs]
      have hms : (k + 1) * size = k * size + size := by ring
      rw [hms]
  · intro env blk addrs vers ds0 hlen
    rw [roundFold_trace_length (bulkChunk1 env blk addrs vers)
      (chunkStarts addrs.length minipoolBatchSize) ds0 ?_]
    · rw [hlen]
      decide
    · intro s i
      rw [show (bulkChunk1 env blk addrs vers s i).1
        = (detailsChunk env blk (entityStep1 env addrs vers)
            addrs.length minipoolBatchSize s i).1 from rfl,
        detailsChunk_fst]
      rfl

/-- An environment advertising a collection of 250 minipools, every call
succeeding. -/
def env250 : ChainEnv where
  elBlockNumber := 0
  callResult := fun _ c =>
    match c.method with
    | "getMinipoolCount" => some (.vInt 250)
    | _ => some (.vInt 0)
  ethBalance := fun _ _ => 0
  balanceBatcherOk := true
  transportOk := fun _ _ => true
  versionContractOk := fun _ => true
  minipoolFromVersionOk := fun _ _ => true

/-- C6 counterexample: with 250 minipools the address enumeration issues
one count round trip plus exactly ONE enumeration chunk (its batch size
is 1000), not the three chunks the claim asserts. -/
theorem enumeration_batches_counterexample :
    (getAllMinipoolAddressesFast env250 0).1.length = 1 + 1 ∧
    ¬ (getAllMinipoolAddressesFast env250 0).1.length = 1 + 3 := by
  have hc : execStrict env250 0 [getMinipoolCountDesc]
      = some [.vInt 250] := by decide
  have htr : (getAllMinipoolAddressesFast env250 0).1.length = 1 + 1 := by
    simp only [getAllMinipoolAddressesFast, hc]
    rw [List.length_cons]
    have hnum : (([Value.vInt 250].headD (Value.vInt 0)).toNat) = 250 := rfl
    rw [hnum]
    rw [roundFold_trace_length (addressChunk env250 0 250)
      (chunkStarts 250 minipoolAddressBatchSize) (List.replicate 250 0)
      (fun s i => rfl)]
    decide
  exact ⟨htr, by rw [htr]; decide⟩

/-! ### Fixed block height (C7) -/

theorem addressChunk_fst (env : ChainEnv) (blk count : Nat)
    (addrs : List Address) (i : Nat) :
    (addressChunk env blk count addrs i).1 =
      some ⟨blk, true, (chunkIdxs i count minipoolAddressBatchSize).map
        getMinipoolAtDesc⟩ := rfl

theorem getAllMinipoolAddressesFast_trace (env : ChainEnv) (blk : Nat) :
    ∀ b ∈ (getAllMinipoolAddressesFast env blk).1, b.block = blk := by
  intro b hb
  rcases hc : execStrict env blk [getMinipoolCountDesc] with _ | vs
  · simp only [getAllMinipoolAddressesFast, hc] at hb
    rcases List.mem_singleton.mp hb with rfl
    rfl
  · simp only [getAllMinipoolAddressesFast, hc] at hb
    rcases List.mem_cons.mp hb with rfl | hb2
    · rfl
    · refine roundFold_trace_block _ _ _ blk ?_ b hb2
      intro s i b2 h2
      rw [addressChunk_fst] at h2
      cases h2
      rfl

theorem getMinipoolVersionsFast_trace (env : ChainEnv) (blk : Nat)
    (addrs : List Address) :
    ∀ b ∈ (getMinipoolVersionsFast env blk addrs).1, b.block = blk := by
  intro b hb
  refine roundFold_trace_block _ _ _ blk ?_ b hb
  intro s i b2 h2
  exact versionChunk_fst_block env blk addrs s i b2 h2

theorem detailsChunk_fst_block (env : ChainEnv) (blk : Nat) (step)
    (count size : Nat) (s : List NativeMinipoolDetails) (i : Nat)
    (b : ExecutedBatch)
    (h : (detailsChunk env blk step count size s i).1 = some b) :
    b.block = blk := by
  rw [detailsChunk_fst] at h
  cases h
  rfl

theorem getBulkMinipoolDetails_trace (env : ChainEnv) (blk : Nat)
    (addrs : List Address) (vers : List Nat) :
    ∀ b ∈ (getBulkMinipoolDetails env blk addrs vers).1, b.block = blk := by
  have hz1t : ∀ b ∈ (bulkZ1 env blk addrs vers).1, b.block = blk := by
    intro b hb
    refine roundFold_trace_block _ _ _ blk ?_ b hb
    intro s i b2 h2
    exact detailsChunk_fst_block env blk _ addrs.length minipoolBatchSize s i b2 h2
  have hz2t : ∀ b ∈ (bulkZ2 env blk addrs vers).1, b.block = blk := by
    intro b hb
    refine roundFold_trace_block _ _ _ blk ?_ b hb
    intro s i b2 h2
    exact detailsChunk_fst_block env blk _ addrs.length minipoolBatchSize s i b2 h2
  intro b hb
  by_cases hbb : env.balanceBatcherOk
  · simp only [getBulkMinipoolDetails, hbb, if_true] at hb
    rcases hz1 : (bulkZ1 env blk addrs vers).2.2 with _ | e
    · rw [hz1] at hb
      rcases hz2 : (bulkZ2 env blk addrs vers).2.2 with _ | e
      all_goals
        rw [hz2] at hb
        simp only [] at hb
        rcases List.mem_cons.mp hb with rfl | hb2
        · rfl
        · rcases List.mem_append.mp hb2 with h3 | h3
          · exact hz1t b h3
          · exact hz2t b h3
    · rw [hz1] at hb
      simp only [] at hb
      rcases List.mem_cons.mp hb with rfl | hb2
      · rfl
      · exact hz1t b hb2
  · simp only [getBulkMinipoolDetails, hbb, if_false] at hb
    rcases List.mem_singleton.mp hb with rfl
    rfl

theorem GetAllNativeMinipoolDetails_trace (env : ChainEnv) :
    ∀ b ∈ (GetAllNativeMinipoolDetails env).1, b.block = env.elBlockNumber := by
  intro b hb
  rcases haddr : (getAllMinipoolAddressesFast env env.elBlockNumber).2 with e | addrs
  · simp only [GetAllNativeMinipoolDetails, haddr] at hb
    exact getAllMinipoolAddressesFast_trace env env.elBlockNumber b hb
  · rcases hver : (getMinipoolVersionsFast env env.elBlockNumber addrs).2 with e | vers
    · simp only [GetAllNativeMinipoolDetails, haddr, hver] at hb
      rcases List.mem_append.mp hb with h2 | h2
      · exact getAllMinipoolAddressesFast_trace env env.elBlockNumber b h2
      · exact getMinipoolVersionsFast_trace env env.elBlockNumber addrs b h2
    · simp only [GetAllNativeMinipoolDetails, haddr, hver] at hb
      rcases List.mem_append.mp hb with h2 | h2
      · rcases List.mem_append.mp h2 with h3 | h3
        · exact getAllMinipoolAddressesFast_trace env env.elBlockNumber b h3
        · exact getMinipoolVersionsFast_trace env env.elBlockNumber addrs b h3
      · exact getBulkMinipoolDetails_trace env env.elBlockNumber addrs vers b h2

theorem GetNativeMinipoolDetails_trace (env : ChainEnv) (a : Address) :
    ∀ b ∈ (GetNativeMinipoolDetails env a).1, b.block = env.elBlockNumber := by
  intro b hb
  simp only [GetNativeMinipoolDetails] at hb
  split at hb
  · rcases List.mem_singleton.mp hb with rfl
    rfl
  · split at hb
    all_goals
      rcases List.mem_cons.mp hb with rfl | hb2
      · rfl
      · rcases List.mem_singleton.mp hb2 with rfl
        rfl

/-- C7: every remote round trip of one snapshot operation — the count
query, address enumeration, version resolution, balance fetch, both field
phases — and of the single-entity variant is pinned to the one block
height contracts.ElBlockNumber. -/
theorem blockHeight_fixed (env : ChainEnv) (a : Address) :
    ((GetAllNativeMinipoolDetails env).1.all
      (fun b => b.block == env.elBlockNumber)) = true ∧
    ((GetNativeMinipoolDetails env a).1.all
      (fun b => b.block == env.elBlockNumber)) = true := by
  constructor
  · rw [List.all_eq_true]
    intro b hb
    exact beq_iff_eq.mpr (GetAllNativeMinipoolDetails_trace env b hb)
  · rw [List.all_eq_true]
    intro b hb
    exact beq_iff_eq.mpr (GetNativeMinipoolDetails_trace env a b hb)

/-! ### Concrete environments and witnesses -/

/-- One minipool at address 9, version 3, refund 2, contract balance 10,
every call succeeding. -/
def okEnv : ChainEnv where
  elBlockNumber := 3
  callResult := fun _ c =>
    match c.method with
    | "getMinipoolCount" => some (.vInt 1)
    | "getMinipoolAt" => some (.vAddr 9)
    | "version" => some (.vInt 3)
    | "getNodeRefundBalance" => some (.vInt 2)
    | _ => some (.vInt 0)
  ethBalance := fun _ _ => 10
  balanceBatcherOk := true
  transportOk := fun _ _ => true
  versionContractOk := fun _ => true
  minipoolFromVersionOk := fun _ _ => true

/-- Every version probe reports a per-call failure; everything else
succeeds. -/
def probeMissEnv : ChainEnv where
  elBlockNumber := 5
  callResult := fun _ c =>
    match c.method with
    | "version" => none
    | _ => some (.vInt 0)
  ethBalance := fun _ _ => 0
  balanceBatcherOk := true
  transportOk := fun _ _ => true
  versionContractOk := fun _ => true
  minipoolFromVersionOk := fun _ _ => true

/-- One minipool whose getStatus call fails; everything else succeeds. -/
def chunkFailEnv : ChainEnv where
  elBlockNumber := 2
  callResult := fun _ c =>
    match c.method with
    | "getMinipoolCount" => some (.vInt 1)
    | "getStatus" => none
    | _ => some (.vInt 0)
  ethBalance := fun _ _ => 0
  balanceBatcherOk := true
  transportOk := fun _ _ => true
  versionContractOk := fun _ => true
  minipoolFromVersionOk := fun _ _ => true

/-- A record whose distributable input is strictly negative. -/
def negDetails : NativeMinipoolDetails :=
  {MinipoolAddress := 2, Version := 3, Balance := some 3, NodeRefundBalance := some 5}

/-- A pre-Atlas record. -/
def v2Details : NativeMinipoolDetails := {MinipoolAddress := 4, Version := 2}

theorem addMinipoolShareCalls_spec_witness :
    plainEnv.minipoolFromVersionOk negDetails.MinipoolAddress negDetails.Version
      = true ∧
    (∃ p, addMinipoolShareCalls plainEnv negDetails = .ok p ∧
      p.1.DistributableBalance
        = some (negDetails.Balance.getD 0 - negDetails.NodeRefundBalance.getD 0) ∧
      (negDetails.Balance.getD 0 - negDetails.NodeRefundBalance.getD 0 < 0 →
        p.1.NodeShareOfBalance = some 0 ∧ p.1.UserShareOfBalance = some 0 ∧
        p.2 = []) ∧
      (0 ≤ negDetails.Balance.getD 0 - negDetails.NodeRefundBalance.getD 0 →
        p.1.NodeShareOfBalance = negDetails.NodeShareOfBalance ∧
        p.1.UserShareOfBalance = negDetails.UserShareOfBalance ∧
        p.2.map (fun bc => (bc.desc.method, bc.field)) =
          [("calculateNodeShare", FieldId.fNodeShareOfBalance),
           ("calculateUserShare", FieldId.fUserShareOfBalance)])) :=
  ⟨rfl, addMinipoolShareCalls_spec plainEnv negDetails rfl⟩

theorem getBulkMinipoolDetails_allOrNothing_witness :
    0 ∈ chunkStarts ([0] : List Address).length minipoolBatchSize ∧
    execStrict chunkFailEnv chunkFailEnv.elBlockNumber
      (round1ChunkCalls chunkFailEnv [0] [0] 0) = none ∧
    (isErrE (getBulkMinipoolDetails chunkFailEnv chunkFailEnv.elBlockNumber
        [0] [0]).2 = true ∧
      ((getAllMinipoolAddressesFast chunkFailEnv chunkFailEnv.elBlockNumber).2
          = .ok [0] →
        (getMinipoolVersionsFast chunkFailEnv chunkFailEnv.elBlockNumber [0]).2
          = .ok [0] →
        isErrE (GetAllNativeMinipoolDetails chunkFailEnv).2 = true)) :=
  ⟨by decide, by decide,
    getBulkMinipoolDetails_allOrNothing chunkFailEnv [0] [0] 0
      (by decide) (by decide)⟩

theorem getBulkMinipoolDetails_indexAligned_witness :
    isOkE (getBulkMinipoolDetails okEnv 3 [9] [3]).2 = true ∧
    (∃ ds, (getBulkMinipoolDetails okEnv 3 [9] [3]).2 = .ok ds ∧
      ds.length = ([9] : List Address).length ∧
      ∀ j, j < ([9] : List Address).length →
        (ds.getD j {}).MinipoolAddress = ([9] : List Address).getD j 0 ∧
        (ds.getD j {}).Version = ([3] : List Nat).getD j 0) :=
  ⟨by decide, getBulkMinipoolDetails_indexAligned okEnv 3 [9] [3] (by decide)⟩

theorem getMinipoolVersionsFast_probeMiss_witness :
    0 < ([7] : List Address).length ∧
    probeMissEnv.callResult 5 (versionDesc (([7] : List Address).getD 0 0))
      = none ∧
    (∃ vs, (getMinipoolVersionsFast probeMissEnv 5 [7]).2 = .ok vs ∧
      vs[0]? = some 1) :=
  ⟨by decide, by decide,
    getMinipoolVersionsFast_probeMiss probeMissEnv 5 [7] 0
      (fun a _ => rfl) (fun cs => rfl) (by decide) (by decide)⟩

theorem addMinipoolDetailsCalls_versionGated_witness :
    plainEnv.minipoolFromVersionOk v2Details.MinipoolAddress v2Details.Version
      = true ∧
    v2Details.Version < 3 ∧
    (∃ p, addMinipoolDetailsCalls plainEnv v2Details = .ok p ∧
      p.1.UserDistributed = false ∧
      p.1.LastBondReductionTime = some 0 ∧
      p.1.LastBondReductionPrevValue = some 0 ∧
      p.1.LastBondReductionPrevNodeFee = some 0 ∧
      p.1.IsVacant = false ∧
      p.1.ReduceBondTime = some 0 ∧
      p.1.ReduceBondCancelled = false ∧
      p.1.ReduceBondValue = some 0 ∧
      p.1.PreMigrationBalance = some 0 ∧
      ∀ bc ∈ p.2, ¬ bc.field ∈ atlasFieldIds) :=
  ⟨rfl, by decide,
    addMinipoolDetailsCalls_versionGated plainEnv v2Details rfl (by decide)⟩

theorem chunk_partition_spec_witness :
    ((chunkStarts 250 100).map (fun i => chunkIdxs i 250 100)).flatten
      = List.range 250 ∧
    ((chunkStarts 250 100)[1]? = some (1 * 100) ∧
      chunkIdxs (1 * 100) 250 100
        = List.range' (1 * 100) (min ((1 + 1) * 100) 250 - 1 * 100)) ∧
    (roundFold (bulkChunk1 plainEnv 0 (List.replicate 250 0) [])
      (chunkStarts (List.replicate (α := Address) 250 0).length minipoolBatchSize)
      []).1.length = 3 :=
  ⟨chunk_partition_spec.1 250 100 (by decide),
   chunk_partition_spec.2.1 250 100 1 (by decide),
   chunk_partition_spec.2.2.2.1 plainEnv 0 (List.replicate 250 0) [] []
     (by decide)⟩

theorem getBulkMinipoolDetails_distributable_witness :
    (∀ a v, okEnv.minipoolFromVersionOk a v = true) ∧
    isOkE (getBulkMinipoolDetails okEnv 3 [9] [3]).2 = true ∧
    (∃ ds, (getBulkMinipoolDetails okEnv 3 [9] [3]).2 = .ok ds ∧
      ∀ j, j < ([9] : List Address).length →
        (ds.getD j {}).Balance
          = some (okEnv.ethBalance 3 (([9] : List Address).getD j 0)) ∧
        (ds.getD j {}).DistributableBalance =
          some ((ds.getD j {}).Balance.getD 0
            - (ds.getD j {}).NodeRefundBalance.getD 0)) :=
  ⟨fun a v => rfl, by decide,
    getBulkMinipoolDetails_distributable okEnv 3 [9] [3]
      (fun a v => rfl) (by decide)⟩

theorem GetNativeMinipoolDetails_probeStrict_witness :
    isErrE (GetNativeMinipoolDetails probeMissEnv 7).2 = true ∧
    (getMinipoolVersionsFast probeMissEnv probeMissEnv.elBlockNumber [7]).2
      = .ok [1] :=
  GetNativeMinipoolDetails_probeStrict probeMissEnv 7
    (fun cs => rfl) rfl (by decide)

end RocketPoolState
